import Mathlib

/-!
USBMicroReader: the stream pipeline of `main.c`.

A shallow embedding of `main.c`: the RIFF header check, the PCM decoder, the
packing of the half-complex FFT output into a power spectrum, the averaging
window, the CSV output and the read loop of `mainloop`.

Conventions of the embedding.

* Samples (`fftw_real`, `double`, `float`) are elements of a field `α`; all
  arithmetic on them is exact.
* `int`, `int16_t` and `int32_t` values are integers (`Int`); conversions to
  a narrower signed type wrap modulo `2 ^ w`.  An array declared with a
  negative size, or an `int` product that overflows, has no defined
  behaviour in C: the run then ends in `Status.undefined`.
* Library functions (`rfftw_one`, `log10`, the `%.3f` conversion of
  `printf`, `time`/`localtime`, libsndfile) are the fields of `Env`.
* The header is read on a little-endian machine without padding
  (`sizeof (t_RIFF_header) = 44`).
-/

namespace USBMicroReader

/-! ## Bytes and machine integers -/

/-- One `unsigned char`. -/
abbrev Byte := Fin 256

/-- Conversion of an integer to a signed type of `w` bits (two's complement wrap). -/
def toSigned (w : Nat) (x : Int) : Int :=
  let m := x % (2 : Int) ^ w
  if m < (2 : Int) ^ (w - 1) then m else m - (2 : Int) ^ w

/-- A little-endian `int16_t` made of two bytes of memory. -/
def le16 (b0 b1 : Byte) : Int :=
  toSigned 16 ((b0.val : Int) + 256 * (b1.val : Int))

/-- A little-endian `int32_t` made of four bytes of memory. -/
def le32 (b0 b1 b2 b3 : Byte) : Int :=
  toSigned 32 ((b0.val : Int) + 256 * (b1.val : Int) + 65536 * (b2.val : Int)
    + 16777216 * (b3.val : Int))

/-- The bytes of a C string literal, with the terminating NUL. -/
def cstr (s : String) : List Byte :=
  s.toList.map (fun c => Fin.ofNat c.toNat) ++ [0]

/-- The function `strncmp` of the C library on two byte sequences: the first `n`
characters are compared as `unsigned char`, and the comparison stops after a
NUL.  Reading past the end of a sequence does not occur in the calls of
this program (every operand has at least `n` bytes); it yields `0`. -/
def strncmp : List Byte → List Byte → Nat → Int
  | _, _, 0 => 0
  | a :: as, b :: bs, n + 1 =>
    if a ≠ b then (a.val : Int) - (b.val : Int)
    else if a = 0 then 0
    else strncmp as bs n
  | _, _, _ + 1 => 0

/-! ## The RIFF header -/

/-- A field `char [4]`. -/
structure Tag where
  c0 : Byte
  c1 : Byte
  c2 : Byte
  c3 : Byte
  deriving DecidableEq

/-- The four characters of a tag, in memory order. -/
def Tag.bytes (t : Tag) : List Byte := [t.c0, t.c1, t.c2, t.c3]

/-- The tag spelled by a four-character string. -/
def Tag.ofString (s : String) : Tag :=
  let l := s.toList.map (fun c => (Fin.ofNat c.toNat : Byte))
  ⟨l.getD 0 0, l.getD 1 0, l.getD 2 0, l.getD 3 0⟩

/-- The record `t_RIFF_header`. -/
structure t_RIFF_header where
  ChunkID : Tag
  ChunkSize : Int
  Format : Tag
  Subchunk1ID : Tag
  Subchunk1Size : Int
  AudioFormat : Int
  NumChannels : Int
  SampleRate : Int
  ByteRate : Int
  BlockAlign : Int
  BitsPerSample : Int
  Subchunk2ID : Int
  Subchunk2Size : Int
  deriving DecidableEq

/-- The value of `sizeof (t_RIFF_header)`. -/
def sizeof_t_RIFF_header : Nat := 44

/-- The header record that `fread (&header, 1, sizeof (t_RIFF_header), fp)`
leaves in memory when it has read the bytes `bs` (44 of them). -/
def headerOfBytes (bs : List Byte) : t_RIFF_header :=
  let b := fun i => bs.getD i 0
  { ChunkID := ⟨b 0, b 1, b 2, b 3⟩
    ChunkSize := le32 (b 4) (b 5) (b 6) (b 7)
    Format := ⟨b 8, b 9, b 10, b 11⟩
    Subchunk1ID := ⟨b 12, b 13, b 14, b 15⟩
    Subchunk1Size := le32 (b 16) (b 17) (b 18) (b 19)
    AudioFormat := le16 (b 20) (b 21)
    NumChannels := le16 (b 22) (b 23)
    SampleRate := le32 (b 24) (b 25) (b 26) (b 27)
    ByteRate := le32 (b 28) (b 29) (b 30) (b 31)
    BlockAlign := le16 (b 32) (b 33)
    BitsPerSample := le16 (b 34) (b 35)
    Subchunk2ID := le32 (b 36) (b 37) (b 38) (b 39)
    Subchunk2Size := le32 (b 40) (b 41) (b 42) (b 43) }

/-- The value of `SF_INFO sfinfo` as far as the program sets it. -/
structure SF_INFO where
  samplerate : Int
  channels : Int
  format : Int
  deriving DecidableEq

/-- The static variables of `main.c`.  `wavfile` is the path on which the
open `SNDFILE` handle was opened, or `none` for the null handle. -/
structure Globals where
  output_dir : String
  samplerate : Int
  bitspersample : Int
  maxfreq : Int
  avg_int_in_sec : Int
  in_db : Bool
  read_command : String
  wav : Bool
  wavfile : Option String
  sfinfo : SF_INFO
  deriving DecidableEq

/-- The function `cheak_riff_header`: the result and the static variables after the
call (`samplerate` and `bitspersample` are stored once the tags, the chunk
size, the format code and the channel count have passed). -/
def cheak_riff_header (g : Globals) (header : t_RIFF_header) : Bool × Globals :=
  if strncmp header.ChunkID.bytes (cstr "RIFF") 4 ≠ 0 then (false, g)
  else if strncmp header.Format.bytes (cstr "WAVE") 4 ≠ 0 then (false, g)
  else if strncmp header.Subchunk1ID.bytes (cstr "fmt ") 4 ≠ 0 then (false, g)
  else if header.Subchunk1Size ≠ 16 then (false, g)
  else if header.AudioFormat ≠ 1 then (false, g)
  else if header.NumChannels ≠ 1 then (false, g)
  else
    let g1 := { g with samplerate := header.SampleRate, bitspersample := header.BitsPerSample }
    if g1.bitspersample ≠ 8 ∧ g1.bitspersample ≠ 16 then (false, g1)
    else (true, g1)

/-! ## The PCM decoder -/

section Decoder

variable {α : Type} [Field α]

/-- The body of the decoding loop of `mainloop` for index `i`: the value of
`realbuf[i]` computed from `buffer`. -/
def decodeSample (bitspersample : Int) (buffer : List Byte) (i : Nat) : α :=
  let raw : Int :=
    if bitspersample = 8 then ((buffer.getD i 0).val : Int)
    else
      let hb : Int := ((buffer.getD (2 * i + 1) 0).val : Int)
      let lb : Int := ((buffer.getD (2 * i) 0).val : Int)
      toSigned 16 (hb * 2 ^ 8 + lb)
  (raw : α) / ((2 : α) ^ (bitspersample - 1).toNat)

/-- The array `realbuf` after the decoding loop `for (i = 0; i < samplerate; i++)`. -/
def decodeFrame (bitspersample : Int) (samplerate : Nat) (buffer : List Byte) : List α :=
  (List.range samplerate).map (decodeSample bitspersample buffer)

end Decoder

/-! ## The environment: library functions, clock and file system -/

/-- The fields of `struct tm` that the program prints. -/
structure Tm where
  tm_year : Int
  tm_mon : Int
  tm_mday : Int
  tm_hour : Int
  tm_min : Int
  tm_sec : Int
  deriving DecidableEq

/-- What the program takes from outside `main.c`.

* `rfftw_one inp k` is `out[k]` after `rfftw_one (p, in, out)`;
* `log10` is the function of `math.h`;
* `printf_3f v` is the text that the conversion `%.3f` prints for `v`;
* `localtime k` is the local time returned by call number `k` of `time`;
* `can_write name` tells whether opening `name` for writing succeeds;
* `sf_new`, `sf_append` and `sf_read_info` give the contents of a sound file
  created by libsndfile, those contents after samples have been written at
  its end, and the `SF_INFO` that opening an existing file stores;
* `stack_byte` and `stack_real` are the contents of the arrays `buffer` and
  `power_spectrum` before the program has written them. -/
structure Env (α : Type) where
  rfftw_one : List α → Nat → α
  log10 : α → α
  printf_3f : α → String
  localtime : Nat → Tm
  can_write : String → Bool
  sf_new : SF_INFO → String
  sf_append : String → List α → String
  sf_read_info : String → SF_INFO
  stack_byte : Nat → Byte
  stack_real : Nat → Nat → α

/-- A file-system state: the contents of every path that exists. -/
abbrev FileSys := String → Option String

/-- The file system in which `name` has the contents `data`. -/
def FileSys.write (fs : FileSys) (name data : String) : FileSys :=
  fun p => if p = name then some data else fs p

/-- The text printed by the conversions `%i`, `%2.2i` and `%4.4i`: at least `prec`
digits, with a minus sign for a negative number (the field width never
exceeds the precision in this program). -/
def printf_i (prec : Nat) (x : Int) : String :=
  let d := Nat.repr x.natAbs
  (if x < 0 then "-" else "") ++ String.mk (List.replicate (prec - d.length) '0') ++ d

/-- The marker `OUTPUT_MARKER`. -/
def OUTPUT_MARKER : String := "out"

/-- The text of `"%s/%4.4i-%2.2i-%2.2i_%s"` for the output directory, the date
of `ti` and the marker, followed by the extension `ext`. -/
def datedName (output_dir : String) (ti : Tm) (ext : String) : String :=
  output_dir ++ "/" ++ printf_i 4 (ti.tm_year + 1900) ++ "-" ++ printf_i 2 (ti.tm_mon + 1)
    ++ "-" ++ printf_i 2 ti.tm_mday ++ "_" ++ OUTPUT_MARKER ++ ext

/-- The function `does_file_exist`: opening for reading succeeds. -/
def does_file_exist (fs : FileSys) (name : String) : Bool :=
  (fs name).isSome

/-- The head line that `file_prepare` prints: `timestamp`, then `,i Hz` for
`i = 1; i < maxfreq; i++`, then a newline. -/
def headerRow (maxfreq : Int) : String :=
  "timestamp"
    ++ String.join ((List.range' 1 (maxfreq - 1).toNat).map
        (fun i => "," ++ printf_i 1 (i : Int) ++ " Hz"))
    ++ "\n"

/-- The function `file_prepare`: the result and the file system after the call.  An
existing file is opened with mode `"a"` and closed again; otherwise the file
is created with mode `"w"` and the head line is written. -/
def file_prepare {α : Type} (E : Env α) (g : Globals) (fs : FileSys) (name : String) :
    Bool × FileSys :=
  let open_mode := if does_file_exist fs name then "a" else "w"
  if ¬ E.can_write name then (false, fs)
  else if open_mode ≠ "a" then (true, fs.write name (headerRow g.maxfreq))
  else (true, fs)

/-! ## The power spectrum -/

section Spectrum

variable {α : Type} [Field α]

/-- The assignments `power_spectrum[k] = value` that `calc_power_spectrum`
executes, in program order. -/
def calc_power_spectrum_writes (E : Env α) (inp : List α) (N : Nat) : List (Nat × α) :=
  let out := E.rfftw_one inp
  [(0, out 0 * out 0)]
    ++ (List.range' 1 ((N + 1) / 2 - 1)).map
        (fun k => (k, out k * out k + out (N - k) * out (N - k)))
    ++ (if N % 2 = 0 then [(N / 2, out (N / 2) * out (N / 2))] else [])

/-- The function `calc_power_spectrum`: the array `power_spectrum` after the call,
from its contents `ps` before the call. -/
def calc_power_spectrum (E : Env α) (inp : List α) (N : Nat) (ps : List α) : List α :=
  (calc_power_spectrum_writes E inp N).foldl (fun row w => row.set w.1 w.2) ps

/-- The function `todB`. -/
def todB (E : Env α) (v : α) : α :=
  10 * E.log10 v

/-- The value `v` of the averaging loop for bin `k`, after `v /= avg_int_in_sec`:
the entries `power_spectrum[j][k]`, `j = 0 .. A - 1`, are added to `0` and
the sum is divided by `A`. -/
def binMean (A : Nat) (power_spectrum : List (List α)) (k : Nat) : α :=
  (List.range A).foldl (fun v j => v + (power_spectrum.getD j []).getD k 0) 0 / (A : α)

/-- The values that the emission loop `for (k = 1; k < maxfreq; k++)` passes to
`fprintf`, in order. -/
def rowValues (E : Env α) (g : Globals) (power_spectrum : List (List α)) : List α :=
  (List.range' 1 (g.maxfreq - 1).toNat).map (fun k =>
    let v := binMean g.avg_int_in_sec.toNat power_spectrum k
    if ¬ g.in_db then v else todB E v)

/-- The text of the conversion `"%4.4i-%2.2i-%2.2i %2.2i:%2.2i:%2.2i"` for `ti`. -/
def timestamp (ti : Tm) : String :=
  printf_i 4 (ti.tm_year + 1900) ++ "-" ++ printf_i 2 (ti.tm_mon + 1) ++ "-"
    ++ printf_i 2 ti.tm_mday ++ " " ++ printf_i 2 ti.tm_hour ++ ":" ++ printf_i 2 ti.tm_min
    ++ ":" ++ printf_i 2 ti.tm_sec

/-- One data row: the time stamp, `,%.3f` for every value, and a newline. -/
def dataRow (E : Env α) (ti : Tm) (values : List α) : String :=
  timestamp ti ++ String.join (values.map (fun v => "," ++ E.printf_3f v)) ++ "\n"

/-- The output part of the block `if (aind == avg_int_in_sec)` of `mainloop`, for
the local time `ti`: `none` when the block executes `return FALSE`, and
otherwise the file system after `fclose (ofp)`. -/
def emitRow (E : Env α) (g : Globals) (fs : FileSys) (ti : Tm)
    (power_spectrum : List (List α)) : Option FileSys :=
  let filename := datedName g.output_dir ti ".csv"
  let prepared := file_prepare E g fs filename
  if ¬ prepared.1 then none
  else if ¬ E.can_write filename then none
  else
    some (prepared.2.write filename
      ((prepared.2 filename).getD "" ++ dataRow E ti (rowValues E g power_spectrum)))

end Spectrum

/-! ## The WAV mirror -/

section Wav

variable {α : Type}

/-- The constant `SF_FORMAT_WAV | SF_FORMAT_DOUBLE` of `sndfile.h`. -/
def SF_FORMAT_WAV_DOUBLE : Int := 0x010000 + 0x0007

/-- The function `close_wav`. -/
def close_wav (g : Globals) : Globals :=
  if g.wavfile ≠ none then { g with wavfile := none } else g

/-- The block `if (!does_file_exist (filename))` of `write_wav`: the old
handle is closed, `sfinfo` is filled in and the file is created with
`sf_open (filename, SFM_WRITE, &sfinfo)`. -/
def wav_create (E : Env α) (g : Globals) (fs : FileSys) (filename : String) :
    Globals × FileSys :=
  if does_file_exist fs filename then (g, fs)
  else
    let gc := close_wav g
    let info : SF_INFO :=
      { gc.sfinfo with channels := 1, format := SF_FORMAT_WAV_DOUBLE,
                       samplerate := gc.samplerate }
    if E.can_write filename then
      ({ gc with sfinfo := info, wavfile := some filename }, fs.write filename (E.sf_new info))
    else ({ gc with sfinfo := info, wavfile := none }, fs)

/-- The block `if (wavfile == 0)` of `write_wav`: the file exists but no handle is
open, so it is opened with `sf_open (filename, SFM_RDWR, &sfinfo)` and
positioned at its end. -/
def wav_reopen (E : Env α) (g : Globals) (fs : FileSys) (filename : String) : Globals :=
  if g.wavfile = none then
    match fs filename with
    | some data0 =>
      if E.can_write filename then
        { g with wavfile := some filename, sfinfo := E.sf_read_info data0 }
      else g
    | none => g
  else g

/-- The block `if (wavfile != 0)` of `write_wav`: the samples are written at the end
of the file of the open handle. -/
def wav_append (E : Env α) (g : Globals) (fs : FileSys) (data : List α) : FileSys :=
  match g.wavfile with
  | some name => fs.write name (E.sf_append ((fs name).getD "") data)
  | none => fs

/-- The function `write_wav`: static variables, file system and number of calls
of `time` after the call. -/
def write_wav (E : Env α) (g : Globals) (fs : FileSys) (clock : Nat) (data : List α) :
    Globals × FileSys × Nat :=
  if g.wav = false then (g, fs, clock)
  else
    let filename := datedName g.output_dir (E.localtime clock) ".wav"
    let created := wav_create E g fs filename
    let g2 := wav_reopen E created.1 created.2 filename
    (g2, wav_append E g2 created.2 data, clock + 1)

end Wav

/-! ## The input stream -/

/-- The state of a `FILE *` opened for reading: the bytes not read yet, whether
the source ends in a read error (rather than in end-of-file), and the two
indicators tested by `feof` and `ferror`. -/
structure FILE where
  rest : List Byte
  fails : Bool
  eof : Bool
  error : Bool
  deriving DecidableEq

/-- The stream returned by `fdopen` on a source that delivers `bytes` and then
ends, in a read error when `fails` is set. -/
def fdopen (bytes : List Byte) (fails : Bool) : FILE :=
  { rest := bytes, fails := fails, eof := false, error := false }

/-- The call `fread (ptr, 1, size, fp)`: the bytes stored and the stream after the
call.  A request that the remaining bytes satisfy (a request of 0 bytes
included) sets no indicator; a request for more returns what remains and
sets the end-of-file indicator, or the error indicator on a failing source. -/
def fread (fp : FILE) (size : Nat) : List Byte × FILE :=
  if size ≤ fp.rest.length then
    (fp.rest.take size, { fp with rest := fp.rest.drop size })
  else
    (fp.rest, { fp with rest := [], eof := fp.eof || !fp.fails, error := fp.error || fp.fails })

/-! ## The read loop of `mainloop` -/

/-- Where a run of `mainloop` stands: inside the function, returned with a result,
or in a state that C leaves undefined (an array of negative size, an `int`
overflow, a row of `power_spectrum` that does not exist). -/
inductive Status where
  | running
  | returned (res : Bool)
  | undefined
  deriving DecidableEq

/-- A record of one completed emission: the local time, the averaging window it
was computed from and the values printed. -/
structure Emission (α : Type) where
  time : Tm
  window : List (List α)
  values : List α

/-- The state of a run of `mainloop`: the static variables, the stream, the file
system, the number of calls of `time` so far, the local variables `n`,
`bytespersec`, `buffer`, `power_spectrum` and `aind`, and three records kept
for the statements below: the frames decoded so far (`realbuf` of every
iteration that reached the decoder), the number of times the block
`if (aind == avg_int_in_sec)` was entered, and the rows written. -/
structure State (α : Type) where
  g : Globals
  fp : FILE
  fs : FileSys
  clock : Nat
  n : Int
  bytespersec : Nat
  buffer : List Byte
  power_spectrum : List (List α)
  aind : Nat
  status : Status
  frames : List (List α)
  emissions : Nat
  rows : List (Emission α)

section Loop

variable {α : Type} [Field α]

/-- The statement `n += fread (buffer, 1, sizeof (buffer), fp)`: the bytes read
replace the front of `buffer`, the rest of `buffer` keeps its contents. -/
def readBlock (s : State α) : State α :=
  let r := fread s.fp s.bytespersec
  { s with fp := r.2, buffer := r.1 ++ s.buffer.drop r.1.length,
           n := toSigned 32 (s.n + (r.1.length : Int)) }

/-- The block `if (aind == avg_int_in_sec)` of `mainloop`. -/
def emission (E : Env α) (s : State α) : State α :=
  let ti := E.localtime s.clock
  let s1 : State α := { s with aind := 0, clock := s.clock + 1, emissions := s.emissions + 1 }
  match emitRow E s.g s.fs ti s.power_spectrum with
  | none => { s1 with status := Status.returned false }
  | some fs2 =>
    { s1 with fs := fs2,
              rows := s.rows ++ [⟨ti, s.power_spectrum, rowValues E s.g s.power_spectrum⟩] }

/-- The statements `ps = power_spectrum[aind++]; calc_power_spectrum (realbuf,
samplerate, ps);`: row `aind` of the window receives the spectrum of the
frame and the cursor advances. -/
def storeRow (E : Env α) (s : State α) (realbuf : List α) : State α :=
  { s with
    power_spectrum := s.power_spectrum.set s.aind
      (calc_power_spectrum E realbuf s.g.samplerate.toNat (s.power_spectrum.getD s.aind [])),
    aind := s.aind + 1 }

/-- The analysis of one frame: `storeRow`, then the test `if (aind ==
avg_int_in_sec)` and its block. -/
def storeSpectrum (E : Env α) (s : State α) (realbuf : List α) : State α :=
  if ((storeRow E s realbuf).aind : Int) = (storeRow E s realbuf).g.avg_int_in_sec then
    emission E (storeRow E s realbuf)
  else storeRow E s realbuf

/-- The frame decoded from `buffer` by the loop `for (i = 0; i < samplerate; i++)`. -/
def realbufOf (s : State α) : List α :=
  decodeFrame s.g.bitspersample s.g.samplerate.toNat s.buffer

/-- The decoding loop and the call `write_wav (realbuf, samplerate)`. -/
def mirrorFrame (E : Env α) (s : State α) : State α :=
  { s with
    g := (write_wav E s.g s.fs s.clock (realbufOf s)).1,
    fs := (write_wav E s.g s.fs s.clock (realbufOf s)).2.1,
    clock := (write_wav E s.g s.fs s.clock (realbufOf s)).2.2,
    frames := s.frames ++ [realbufOf s] }

/-- The loop body after the read has succeeded: the frame is decoded, mirrored
with `write_wav`, analysed and stored in the window.  A cursor `aind` outside
`power_spectrum` (only possible when `avg_int_in_sec` is 0) leaves the run
undefined. -/
def feedFrame (E : Env α) (s : State α) : State α :=
  if (mirrorFrame E s).g.avg_int_in_sec ≤ ((mirrorFrame E s).aind : Int) then
    { mirrorFrame E s with status := Status.undefined }
  else storeSpectrum E (mirrorFrame E s) (realbufOf s)

/-- One iteration of `while (!feof (fp))` in `mainloop`, the test of the loop
included, from a state inside the function. -/
def loopBody (E : Env α) (s : State α) : State α :=
  if s.fp.eof then { s with status := Status.returned true }
  else if (readBlock s).fp.error then { readBlock s with status := Status.returned false }
  else feedFrame E (readBlock s)

/-- The state in which `mainloop` has executed `return FALSE` before its loop. -/
def stopped (g : Globals) (fp : FILE) (fs : FileSys) (clock : Nat) (n : Int) : State α :=
  { g := g, fp := fp, fs := fs, clock := clock, n := n, bytespersec := 0, buffer := [],
    power_spectrum := [], aind := 0, status := Status.returned false, frames := [],
    emissions := 0, rows := [] }

/-- The statement `if (maxfreq > samplerate / 2) maxfreq = samplerate / 2;`. -/
def clampMaxfreq (g : Globals) : Globals :=
  if g.maxfreq > Int.tdiv g.samplerate 2 then { g with maxfreq := Int.tdiv g.samplerate 2 }
  else g

/-- The declarations between the header check and the loop: `n = 0`,
`bytespersec`, `buffer`, `power_spectrum` and `aind = 0`.  A negative array
size or an overflow of `bytespersec` leaves the run undefined. -/
def enterLoop (E : Env α) (g : Globals) (fp : FILE) (fs : FileSys) (clock : Nat) : State α :=
  let bytespersec : Int := Int.tdiv g.bitspersample 8 * g.samplerate
  let s : State α :=
    { g := g, fp := fp, fs := fs, clock := clock, n := 0, bytespersec := bytespersec.toNat,
      buffer := (List.range bytespersec.toNat).map E.stack_byte,
      power_spectrum :=
        (List.range g.avg_int_in_sec.toNat).map (fun j =>
          (List.range (g.samplerate.toNat / 2 + 1)).map (E.stack_real j)),
      aind := 0, status := Status.running, frames := [], emissions := 0, rows := [] }
  if g.samplerate < 0 ∨ (2 : Int) ^ 31 ≤ bytespersec ∨ g.avg_int_in_sec < 0 then
    { s with status := Status.undefined }
  else s

/-- The state of `mainloop (fp)` when it reaches `while (!feof (fp))` for the
first time, or the state in which it has returned before. -/
def mainloopInit (E : Env α) (g : Globals) (fs : FileSys) (clock : Nat) (fp : FILE) :
    State α :=
  -- n += fread (&header, 1, sizeof (t_RIFF_header), fp);  (at most 44: no wrap)
  let r := fread fp sizeof_t_RIFF_header
  let n : Int := 0 + (r.1.length : Int)
  if n ≠ (sizeof_t_RIFF_header : Int) then stopped g r.2 fs clock n
  else
    let c := cheak_riff_header g (headerOfBytes r.1)
    if ¬ c.1 then stopped c.2 r.2 fs clock n
    else enterLoop E (clampMaxfreq c.2) r.2 fs clock

/-- One step of a run: an iteration of the loop while the run is inside
`mainloop`, nothing once it has ended. -/
def step (E : Env α) (s : State α) : State α :=
  match s.status with
  | Status.running => loopBody E s
  | _ => s

/-- The state of the run `mainloop (fp)` after at most `k` iterations of its loop. -/
def mainloopState (E : Env α) (g : Globals) (fs : FileSys) (clock : Nat) (fp : FILE)
    (k : Nat) : State α :=
  (step E)^[k] (mainloopInit E g fs clock fp)

/-- The function `mainloop`, with `fuel` bounding the number of loop iterations: the
state in which the run has ended (`status` holds the value returned), or
`none` when it is still inside the loop after `fuel` iterations. -/
def mainloop (E : Env α) (fuel : Nat) (g : Globals) (fs : FileSys) (clock : Nat)
    (fp : FILE) : Option (State α) :=
  let s := mainloopState E g fs clock fp fuel
  if s.status = Status.running then none else some s

end Loop

/-! ## Concrete inputs used below -/

/-- The static variables as `main.c` initialises them, with the given `maxfreq` and
`avg_int_in_sec`. -/
def globals0 (maxfreq avg : Int) : Globals :=
  { output_dir := ".", samplerate := 0, bitspersample := 0, maxfreq := maxfreq,
    avg_int_in_sec := avg, in_db := false,
    read_command := "/usr/bin/arecord -r 8000 -f S16_LE -D hw:1,0", wav := false,
    wavfile := none, sfinfo := ⟨0, 0, 0⟩ }

/-- An environment with the transform `rfftw`: every file can be written, the clock
stands at 2015-06-01 12:00:00, `%.3f` prints `v`, and memory not yet written
holds zeros. -/
def envOf {α : Type} [Field α] (rfftw : List α → Nat → α) : Env α :=
  { rfftw_one := rfftw, log10 := fun _ => 0, printf_3f := fun _ => "v",
    localtime := fun _ => ⟨115, 5, 1, 12, 0, 0⟩, can_write := fun _ => true,
    sf_new := fun _ => "", sf_append := fun d _ => d, sf_read_info := fun _ => ⟨0, 0, 0⟩,
    stack_byte := fun _ => 0, stack_real := fun _ _ => 0 }

/-- An environment over the rationals whose transform returns zeros. -/
def env0 : Env ℚ := envOf (fun _ _ => 0)

/-- The empty file system. -/
def fs0 : FileSys := fun _ => none

/-- The 44 bytes of a header with the three tags, chunk size 16, format code 1, one
channel and the given sample rate (below 256) and bits per sample. -/
def headerBytes (rate bits : Byte) : List Byte :=
  [82, 73, 70, 70, 0, 0, 0, 0, 87, 65, 86, 69, 102, 109, 116, 32, 16, 0, 0, 0, 1, 0, 1, 0,
   rate, 0, 0, 0, 0, 0, 0, 0, 0, 0, bits, 0, 0, 0, 0, 0, 0, 0, 0, 0]


/-- The little-endian two's-complement byte pair (low byte, high byte) of a signed
16-bit value, as the input format stores it. -/
def encodeLE16 (v : Int) : Byte × Byte :=
  (Fin.ofNat (v % 256).toNat, Fin.ofNat (v / 256 % 256).toNat)

/-- The value that `calc_power_spectrum` assigns to bin `k` of a frame of `N`
samples, from the half-complex array `out`. -/
def spectrumBin {α : Type} [Field α] (out : Nat → α) (N k : Nat) : α :=
  if k = 0 then out 0 * out 0
  else if k < (N + 1) / 2 then out k * out k + out (N - k) * out (N - k)
  else out (N / 2) * out (N / 2)

/-- The array `out` is the exact real-to-halfcomplex transform of the frame `x`:
`X k` is the coefficient `∑ n, x[n] * exp (-2 π i k n / N)` of the discrete
Fourier transform, `out[k]` its real part for `0 ≤ k ≤ N / 2` and `out[N - k]`
its imaginary part for `1 ≤ k < (N + 1) / 2`. -/
def IsHalfComplexDFT (x : List ℝ) (X : ℕ → ℂ) (out : ℕ → ℝ) : Prop :=
  (∀ k : ℕ, X k = ∑ n in Finset.range x.length,
      ((x.getD n 0 : ℝ) : ℂ)
        * Complex.exp (-2 * (Real.pi : ℂ) * Complex.I * (k : ℂ) * (n : ℂ) / (x.length : ℂ)))
  ∧ (∀ k : ℕ, k ≤ x.length / 2 → out k = (X k).re)
  ∧ (∀ k : ℕ, 1 ≤ k → k < (x.length + 1) / 2 → out (x.length - k) = (X k).im)

/-- The static variables `g1` hold the same configuration and stream format as `g`:
all of them agree except the sound-file handle and `sfinfo`. -/
def SameConfig (g g1 : Globals) : Prop :=
  g1.output_dir = g.output_dir ∧ g1.samplerate = g.samplerate
  ∧ g1.bitspersample = g.bitspersample ∧ g1.maxfreq = g.maxfreq
  ∧ g1.avg_int_in_sec = g.avg_int_in_sec ∧ g1.in_db = g.in_db
  ∧ g1.read_command = g.read_command ∧ g1.wav = g.wav

/-- The counters of the averager agree with the number of frames fed: in a run with
averaging interval `A`, the number of emissions is `⌊frames / A⌋` and the
cursor is `frames mod A`. -/
def CountInv {α : Type} (A : Nat) (s : State α) : Prop :=
  s.g.avg_int_in_sec = (A : Int) ∧ s.emissions = s.frames.length / A
    ∧ s.aind = s.frames.length % A

/-- The values of an emission are the arithmetic means of the bins `1 .. M - 1` over
the `A` rows of its window, in this order. -/
def RowOK {α : Type} [Field α] (M : Int) (A : Nat) (r : Emission α) : Prop :=
  r.window.length = A
  ∧ r.values = (List.range' 1 (M - 1).toNat).map (fun k =>
      (∑ j in Finset.range A, (r.window.getD j []).getD k 0) / (A : α))

/-- The rows written so far in a run in linear mode with clamped maximum frequency
`M` and averaging interval `A` are all as `RowOK` says. -/
def RowsInv {α : Type} [Field α] (M : Int) (A : Nat) (s : State α) : Prop :=
  s.g.maxfreq = M ∧ s.g.avg_int_in_sec = (A : Int) ∧ s.g.in_db = false
  ∧ s.power_spectrum.length = A ∧ ∀ r ∈ s.rows, RowOK M A r

/-- A run that is inside the loop of `mainloop` on a source that has not ended and
does not fail, with `B` bytes per second and averaging interval `A`. -/
def Flowing {α : Type} (B A : Nat) (s : State α) : Prop :=
  s.status = Status.running ∧ s.fp.eof = false ∧ s.fp.error = false ∧ s.fp.fails = false
  ∧ s.bytespersec = B ∧ CountInv A s

/-! ## Lemmas on the header check -/

theorem strncmp_four (a b c d p q r t : Byte) (hp : p ≠ 0) (hq : q ≠ 0) (hr : r ≠ 0) :
    strncmp [a, b, c, d] [p, q, r, t, 0] 4 = 0 ↔ a = p ∧ b = q ∧ c = r ∧ d = t := by
  have hne : ∀ x y : Byte, x ≠ y → ((x.val : Int) - (y.val : Int) ≠ 0) := by
    intro x y hxy h
    apply hxy
    apply Fin.ext
    omega
  by_cases h1 : a = p
  · subst h1
    by_cases h2 : b = q
    · subst h2
      by_cases h3 : c = r
      · subst h3
        by_cases h4 : d = t
        · subst h4
          simp [strncmp, hp, hq, hr]
        · simp [strncmp, hp, hq, hr, h4, hne d t h4]
      · simp [strncmp, hp, hq, h3, hne c r h3]
    · simp [strncmp, hp, h2, hne b q h2]
  · simp [strncmp, h1, hne a p h1]

theorem strncmp_tag (x : Tag) (s : String) (p q r t : Byte)
    (hs : cstr s = [p, q, r, t, 0]) (hp : p ≠ 0) (hq : q ≠ 0) (hr : r ≠ 0) :
    strncmp x.bytes (cstr s) 4 = 0 ↔ x = ⟨p, q, r, t⟩ := by
  rw [hs, Tag.bytes, strncmp_four _ _ _ _ _ _ _ _ hp hq hr]
  cases x
  simp

theorem cheak_riff_header_iff (g : Globals) (header : t_RIFF_header) :
    (cheak_riff_header g header).1 = true ↔
      (header.ChunkID = Tag.ofString "RIFF" ∧ header.Format = Tag.ofString "WAVE"
        ∧ header.Subchunk1ID = Tag.ofString "fmt " ∧ header.Subchunk1Size = 16
        ∧ header.AudioFormat = 1 ∧ header.NumChannels = 1
        ∧ (header.BitsPerSample = 8 ∨ header.BitsPerSample = 16)) := by
  have h1 := strncmp_tag header.ChunkID "RIFF" 82 73 70 70 (by decide) (by decide)
    (by decide) (by decide)
  have h2 := strncmp_tag header.Format "WAVE" 87 65 86 69 (by decide) (by decide)
    (by decide) (by decide)
  have h3 := strncmp_tag header.Subchunk1ID "fmt " 102 109 116 32 (by decide) (by decide)
    (by decide) (by decide)
  have e1 : Tag.ofString "RIFF" = ⟨82, 73, 70, 70⟩ := by decide
  have e2 : Tag.ofString "WAVE" = ⟨87, 65, 86, 69⟩ := by decide
  have e3 : Tag.ofString "fmt " = ⟨102, 109, 116, 32⟩ := by decide
  rw [e1, e2, e3, ← h1, ← h2, ← h3]
  unfold cheak_riff_header
  split_ifs <;> simp_all
  by_cases h8 : header.BitsPerSample = 8 <;> by_cases h16 : header.BitsPerSample = 16 <;>
    simp [h8, h16]

/-! ## Lemmas on runs -/

section RunLemmas

variable {α : Type} [Field α]

theorem step_of_ended (E : Env α) (s : State α) (h : s.status ≠ Status.running) :
    step E s = s := by
  unfold step
  split
  · contradiction
  · rfl

theorem iterate_step_of_ended (E : Env α) (s : State α) (h : s.status ≠ Status.running)
    (k : Nat) : (step E)^[k] s = s := by
  induction k with
  | zero => rfl
  | succ k ih => rw [Function.iterate_succ_apply, step_of_ended E s h, ih]

theorem fread_header (hdr payload : List Byte) (fails : Bool)
    (hlen : hdr.length = sizeof_t_RIFF_header) :
    fread (fdopen (hdr ++ payload) fails) sizeof_t_RIFF_header
      = (hdr, { rest := payload, fails := fails, eof := false, error := false }) := by
  simp [fread, fdopen, hlen]

theorem header_count (hdr : List Byte) (hlen : hdr.length = sizeof_t_RIFF_header) :
    0 + (hdr.length : Int) = (sizeof_t_RIFF_header : Int) := by
  rw [hlen]; decide

omit [Field α] in
theorem mainloopInit_rejected (E : Env α) (g : Globals) (fs : FileSys) (clock : Nat)
    (hdr payload : List Byte) (fails : Bool) (hlen : hdr.length = sizeof_t_RIFF_header)
    (hrej : (cheak_riff_header g (headerOfBytes hdr)).1 = false) :
    mainloopInit E g fs clock (fdopen (hdr ++ payload) fails)
      = stopped (cheak_riff_header g (headerOfBytes hdr)).2
          { rest := payload, fails := fails, eof := false, error := false } fs clock 44 := by
  unfold mainloopInit
  rw [fread_header hdr payload fails hlen]
  dsimp only
  rw [header_count hdr hlen, if_neg (by simp), if_pos (by simp [hrej])]
  rfl

end RunLemmas

/-! ## Header validation -/

/-- C1: `cheak_riff_header` returns TRUE exactly for a header record with the
tags `RIFF`, `WAVE` and `fmt `, chunk size 16, format code 1, one channel and
8 or 16 bits per sample; and when it returns FALSE on the 44 bytes read
from the stream, `mainloop` returns FALSE (for every bound on the number of
loop iterations) with no frame decoded, no row written and the file system
as it was. -/
theorem header_validation {α : Type} [Field α] (E : Env α) (g : Globals) (fs : FileSys)
    (clock fuel : Nat) (hdr payload : List Byte) (fails : Bool)
    (hlen : hdr.length = sizeof_t_RIFF_header) :
    (∀ (g0 : Globals) (header : t_RIFF_header),
      (cheak_riff_header g0 header).1 = true ↔
        (header.ChunkID = Tag.ofString "RIFF" ∧ header.Format = Tag.ofString "WAVE"
          ∧ header.Subchunk1ID = Tag.ofString "fmt " ∧ header.Subchunk1Size = 16
          ∧ header.AudioFormat = 1 ∧ header.NumChannels = 1
          ∧ (header.BitsPerSample = 8 ∨ header.BitsPerSample = 16)))
    ∧ ((cheak_riff_header g (headerOfBytes hdr)).1 = false →
        ∃ s : State α, mainloop E fuel g fs clock (fdopen (hdr ++ payload) fails) = some s
          ∧ s.status = Status.returned false ∧ s.frames = [] ∧ s.rows = [] ∧ s.fs = fs) := by
  refine ⟨cheak_riff_header_iff, fun hrej => ?_⟩
  have hinit := mainloopInit_rejected E g fs clock hdr payload fails hlen hrej
  have hst : (mainloopInit E g fs clock (fdopen (hdr ++ payload) fails)).status
      ≠ Status.running := by rw [hinit]; simp [stopped]
  refine ⟨mainloopInit E g fs clock (fdopen (hdr ++ payload) fails), ?_, ?_⟩
  · unfold mainloop mainloopState
    rw [iterate_step_of_ended E _ hst]
    simp [hst]
  · rw [hinit]; simp [stopped]

/-- C1 at a concrete stream: a header announcing 24 bits per sample is rejected and
the run returns FALSE without decoding. -/
theorem header_validation_witness :
    (cheak_riff_header (globals0 100 60) (headerOfBytes (headerBytes 1 24))).1 = false
    ∧ ∃ s : State ℚ,
        mainloop env0 5 (globals0 100 60) fs0 0 (fdopen (headerBytes 1 24 ++ [1, 2, 3]) false)
          = some s
        ∧ s.status = Status.returned false ∧ s.frames = [] ∧ s.rows = [] ∧ s.fs = fs0 :=
  ⟨by decide,
    (header_validation env0 (globals0 100 60) fs0 0 5 (headerBytes 1 24) [1, 2, 3] false
      (by decide)).2 (by decide)⟩

/-! ## The decoder -/

theorem toSigned_encodeLE16 (v : Int) (hlo : -32768 ≤ v) (hhi : v ≤ 32767) :
    toSigned 16 ((((encodeLE16 v).2).val : Int) * 2 ^ 8 + (((encodeLE16 v).1).val : Int)) = v := by
  have h1 : (((encodeLE16 v).1).val : Int) = v % 256 := by
    simp only [encodeLE16, Fin.ofNat, Fin.val_mk]
    omega
  have h2 : (((encodeLE16 v).2).val : Int) = v / 256 % 256 := by
    simp only [encodeLE16, Fin.ofNat, Fin.val_mk]
    omega
  rw [h1, h2]
  unfold toSigned
  norm_num
  split_ifs <;> omega

/-- C2: in the decoding step of `mainloop`, a 16-bit sample whose two bytes are the
little-endian two's-complement encoding of `v` (with `-32768 ≤ v ≤ 32767`)
decodes to exactly `v / 32768`, and an 8-bit sample decodes to exactly the
byte value divided by 128. -/
theorem decode_exact {α : Type} [Field α] (buffer : List Byte) (i : Nat) :
    (∀ v : Int, -32768 ≤ v → v ≤ 32767 →
      buffer.getD (2 * i) 0 = (encodeLE16 v).1 → buffer.getD (2 * i + 1) 0 = (encodeLE16 v).2 →
      (decodeSample 16 buffer i : α) = (v : α) / 32768)
    ∧ (∀ b : Byte, buffer.getD i 0 = b → (decodeSample 8 buffer i : α) = (b.val : α) / 128) := by
  constructor
  · intro v hlo hhi h0 h1
    unfold decodeSample
    simp only [h0, h1]
    rw [if_neg (by decide), toSigned_encodeLE16 v hlo hhi]
    have e : Int.toNat (16 - 1) = 15 := rfl
    rw [e]
    norm_num
  · intro b hb
    unfold decodeSample
    simp only [hb]
    have e : Int.toNat (8 - 1) = 7 := rfl
    rw [if_pos trivial, e]
    norm_num

/-- C2 at concrete bytes: the pair `(0x00, 0x80)` encodes `-32768` and decodes to
`-32768 / 32768`, and the byte 255 decodes to `255 / 128`. -/
theorem decode_exact_witness :
    (decodeSample 16 [0, 128] 0 : ℚ) = ((-32768 : Int) : ℚ) / 32768
    ∧ (decodeSample 8 [255] 0 : ℚ) = (((255 : Byte).val : ℕ) : ℚ) / 128 :=
  ⟨(decode_exact [0, 128] 0).1 (-32768) (by decide) (by decide) (by decide) (by decide),
    (decode_exact [255] 0).2 255 (by decide)⟩

theorem toSigned_16_range (x : Int) : -32768 ≤ toSigned 16 x ∧ toSigned 16 x < 32768 := by
  unfold toSigned
  norm_num
  split_ifs <;> omega

theorem decodeFrame_length {α : Type} [Field α] (bits : Int) (rate : Nat)
    (buffer : List Byte) : (decodeFrame bits rate buffer : List α).length = rate := by
  simp [decodeFrame]

theorem decodeSample_16_range {α : Type} [LinearOrderedField α] (buffer : List Byte)
    (i : Nat) : -1 ≤ (decodeSample 16 buffer i : α) ∧ (decodeSample 16 buffer i : α) < 1 := by
  unfold decodeSample
  have e : Int.toNat (16 - 1) = 15 := rfl
  rw [if_neg (by decide), e]
  obtain ⟨h1, h2⟩ := toSigned_16_range
    (((buffer.getD (2 * i + 1) 0).val : Int) * 2 ^ 8 + ((buffer.getD (2 * i) 0).val : Int))
  generalize toSigned 16
    (((buffer.getD (2 * i + 1) 0).val : Int) * 2 ^ 8 + ((buffer.getD (2 * i) 0).val : Int)) = r
    at h1 h2
  have h1c : ((-32768 : Int) : α) ≤ (r : α) := Int.cast_le.mpr h1
  have h2c : (r : α) < ((32768 : Int) : α) := Int.cast_lt.mpr h2
  push_cast at h1c h2c
  constructor
  · rw [le_div_iff₀ (by norm_num)]
    norm_num
    exact h1c
  · rw [div_lt_iff₀ (by norm_num)]
    norm_num
    exact h2c

theorem decodeSample_8_range {α : Type} [LinearOrderedField α] (buffer : List Byte)
    (i : Nat) : 0 ≤ (decodeSample 8 buffer i : α) ∧ (decodeSample 8 buffer i : α) < 2 := by
  unfold decodeSample
  have e : Int.toNat (8 - 1) = 7 := rfl
  rw [if_pos rfl, e]
  have hb : ((buffer.getD i 0).val : Int) < 256 := by
    have := (buffer.getD i 0).isLt
    omega
  have hb0 : (0 : Int) ≤ ((buffer.getD i 0).val : Int) := by omega
  generalize ((buffer.getD i 0).val : Int) = r at hb hb0
  have h1c : ((0 : Int) : α) ≤ (r : α) := Int.cast_le.mpr hb0
  have h2c : (r : α) < ((256 : Int) : α) := Int.cast_lt.mpr hb
  push_cast at h1c h2c
  constructor
  · positivity
  · rw [div_lt_iff₀ (by norm_num)]
    norm_num
    exact h2c

/-- C9, as the code has it: for 8 and 16 bits per sample and every contents of
`buffer`, the decoded frame has `samplerate` entries; every 16-bit sample
lies in `-1 ≤ x < 1`, and every 8-bit sample, taken from an unsigned byte
without removing an offset, lies in `0 ≤ x < 2`. -/
theorem decode_range {α : Type} [LinearOrderedField α] (rate : Nat) (buffer : List Byte) :
    (∀ bits : Int, (decodeFrame bits rate buffer : List α).length = rate)
    ∧ (∀ x ∈ (decodeFrame 16 rate buffer : List α), -1 ≤ x ∧ x < 1)
    ∧ (∀ x ∈ (decodeFrame 8 rate buffer : List α), 0 ≤ x ∧ x < 2) := by
  refine ⟨fun bits => decodeFrame_length bits rate buffer, ?_, ?_⟩
  · intro x hx
    simp only [decodeFrame, List.mem_map] at hx
    obtain ⟨i, _, rfl⟩ := hx
    exact decodeSample_16_range buffer i
  · intro x hx
    simp only [decodeFrame, List.mem_map] at hx
    obtain ⟨i, _, rfl⟩ := hx
    exact decodeSample_8_range buffer i

/-- C9 at a concrete block: two 16-bit samples, `-1` and `32767 / 32768`. -/
theorem decode_range_witness :
    (decodeFrame 16 2 [0, 128, 255, 127] : List ℚ).length = 2
    ∧ (-1 ≤ (decodeSample 16 [0, 128, 255, 127] 1 : ℚ)
        ∧ (decodeSample 16 [0, 128, 255, 127] 1 : ℚ) < 1) :=
  ⟨(decode_range 2 [0, 128, 255, 127]).1 16,
    (decode_range 2 [0, 128, 255, 127]).2.1 _
      (List.mem_map.mpr ⟨1, by decide, rfl⟩)⟩

/-- C9 fails as stated: the 8-bit block holding the byte 255 decodes to the
sample `255 / 128`, which is not below 1. -/
theorem decode_range_counterexample :
    (decodeFrame 8 1 [255] : List ℚ) = [255 / 128] ∧ ¬ ((255 / 128 : ℚ) < 1) := by
  constructor
  · simp only [decodeFrame, decodeSample, List.range, List.range.loop, List.map, List.getD_cons_zero]
    rw [if_pos trivial, show ((255 : Byte).val : Int) = 255 from rfl,
      show Int.toNat (8 - 1) = 7 from rfl]
    norm_num
  · norm_num

/-! ## The power spectrum -/

section SpectrumLemmas

variable {α : Type} [Field α]

theorem range_split_even (m : Nat) :
    List.range (m + 1 + 1) = [0] ++ List.range' 1 m ++ [m + 1] := by
  rw [List.range_succ, List.range_eq_range', List.range'_succ]
  simp

theorem range_split_odd (m : Nat) : List.range (m + 1) = [0] ++ List.range' 1 m := by
  rw [List.range_eq_range', List.range'_succ]
  simp

theorem spectrumBin_zero (out : Nat → α) (N : Nat) :
    spectrumBin out N 0 = out 0 * out 0 := by
  simp [spectrumBin]

theorem spectrumBin_mid (out : Nat → α) (N k : Nat) (h1 : 1 ≤ k) (h2 : k < (N + 1) / 2) :
    spectrumBin out N k = out k * out k + out (N - k) * out (N - k) := by
  have hk0 : ¬ (k = 0) := by omega
  simp [spectrumBin, hk0, h2]

theorem spectrumBin_nyquist (out : Nat → α) (N : Nat) (h1 : 1 ≤ N / 2)
    (h2 : ¬ (N / 2 < (N + 1) / 2)) :
    spectrumBin out N (N / 2) = out (N / 2) * out (N / 2) := by
  have hk0 : ¬ (N / 2 = 0) := by omega
  simp [spectrumBin, hk0, h2]

theorem calc_power_spectrum_writes_eq (E : Env α) (inp : List α) (N : Nat) (hN : 1 ≤ N) :
    calc_power_spectrum_writes E inp N
      = (List.range (N / 2 + 1)).map (fun k => (k, spectrumBin (E.rfftw_one inp) N k)) := by
  unfold calc_power_spectrum_writes
  rcases Nat.even_or_odd' N with ⟨m, rfl | rfl⟩
  · obtain ⟨m, rfl⟩ : ∃ j, m = j + 1 := ⟨m - 1, by omega⟩
    have h1 : (2 * (m + 1) + 1) / 2 = m + 1 := by omega
    have h2 : 2 * (m + 1) % 2 = 0 := by omega
    have h3 : 2 * (m + 1) / 2 = m + 1 := by omega
    have emid : ∀ k ∈ List.range' 1 m,
        (fun k => (k, spectrumBin (E.rfftw_one inp) (2 * (m + 1)) k)) k
          = (fun k => (k, E.rfftw_one inp k * E.rfftw_one inp k
              + E.rfftw_one inp (2 * (m + 1) - k) * E.rfftw_one inp (2 * (m + 1) - k))) k := by
      intro k hk
      rw [List.mem_range'] at hk
      obtain ⟨i, hi, rfl⟩ := hk
      simp only
      rw [spectrumBin_mid _ _ _ (by omega) (by omega)]
    have elast := spectrumBin_nyquist (E.rfftw_one inp) (2 * (m + 1)) (by omega) (by omega)
    rw [h3] at elast
    simp only [h1, h2, h3, if_true, Nat.add_sub_cancel, range_split_even, List.map_append,
      List.map_cons, List.map_nil]
    rw [List.map_congr_left emid, spectrumBin_zero, elast]
  · have h1 : (2 * m + 1 + 1) / 2 = m + 1 := by omega
    have h2 : ¬ ((2 * m + 1) % 2 = 0) := by omega
    have h3 : (2 * m + 1) / 2 = m := by omega
    have emid : ∀ k ∈ List.range' 1 m,
        (fun k => (k, spectrumBin (E.rfftw_one inp) (2 * m + 1) k)) k
          = (fun k => (k, E.rfftw_one inp k * E.rfftw_one inp k
              + E.rfftw_one inp (2 * m + 1 - k) * E.rfftw_one inp (2 * m + 1 - k))) k := by
      intro k hk
      rw [List.mem_range'] at hk
      obtain ⟨i, hi, rfl⟩ := hk
      simp only
      rw [spectrumBin_mid _ _ _ (by omega) (by omega)]
    simp only [h1, h2, h3, if_false, Nat.add_sub_cancel, range_split_odd, List.map_append,
      List.map_cons, List.map_nil, List.append_nil]
    rw [List.map_congr_left emid, spectrumBin_zero]

theorem foldl_set_length {β : Type} (ws : List (Nat × β)) (ps : List β) :
    (ws.foldl (fun row w => row.set w.1 w.2) ps).length = ps.length := by
  induction ws generalizing ps with
  | nil => rfl
  | cons w ws ih => simp [List.foldl_cons, ih]

theorem foldl_set_range {β : Type} (f : Nat → β) (n : Nat) (ps : List β) (j : Nat) :
    (((List.range n).map (fun k => (k, f k))).foldl (fun row w => row.set w.1 w.2) ps)[j]?
      = if j < n ∧ j < ps.length then some (f j) else ps[j]? := by
  induction n with
  | zero => simp
  | succ n ih =>
    rw [List.range_succ, List.map_append, List.foldl_append]
    simp only [List.map_cons, List.map_nil, List.foldl_cons, List.foldl_nil]
    rw [List.getElem?_set, foldl_set_length, ih]
    by_cases hj : n = j
    · subst hj
      by_cases hl : n < ps.length
      · simp [hl]
      · simp [hl]
        omega
    · by_cases hl : j < ps.length
      · by_cases hn : j < n
        · have : j < n + 1 := by omega
          simp [hj, hl, hn, this]
        · have : ¬ j < n + 1 := by omega
          simp [hj, hl, hn, this]
      · simp [hj, hl]

theorem calc_power_spectrum_getD (E : Env α) (inp : List α) (N : Nat) (ps : List α)
    (hN : 1 ≤ N) (hps : ps.length = N / 2 + 1) (k : Nat) (hk : k ≤ N / 2) :
    (calc_power_spectrum E inp N ps).getD k 0 = spectrumBin (E.rfftw_one inp) N k := by
  unfold calc_power_spectrum
  rw [calc_power_spectrum_writes_eq E inp N hN, List.getD_eq_getElem?_getD, foldl_set_range]
  have h : k < N / 2 + 1 ∧ k < ps.length := by omega
  simp [h]

theorem calc_power_spectrum_length (E : Env α) (inp : List α) (N : Nat) (ps : List α) :
    (calc_power_spectrum E inp N ps).length = ps.length := by
  unfold calc_power_spectrum
  exact foldl_set_length _ _

end SpectrumLemmas

theorem sum_range_getD (x : List ℝ) :
    ∑ n in Finset.range x.length, x.getD n 0 = x.sum := by
  induction x with
  | nil => simp
  | cons a l ih =>
    rw [List.length_cons, Finset.sum_range_succ', List.sum_cons, ← ih]
    simp [add_comm]

theorem dft_zero (x : List ℝ) (X : ℕ → ℂ) (out : ℕ → ℝ) (h : IsHalfComplexDFT x X out) :
    X 0 = ((x.sum : ℝ) : ℂ) := by
  rw [h.1 0, ← sum_range_getD, Complex.ofReal_sum]
  apply Finset.sum_congr rfl
  intro n _
  simp

theorem dft_nyquist_im (x : List ℝ) (X : ℕ → ℂ) (out : ℕ → ℝ)
    (h : IsHalfComplexDFT x X out) (m : ℕ) (hm : 1 ≤ m) (hx : x.length = 2 * m) :
    (X m).im = 0 := by
  rw [h.1 m, Complex.im_sum]
  apply Finset.sum_eq_zero
  intro n _
  have hm0 : (m : ℂ) ≠ 0 := by
    have : m ≠ 0 := by omega
    exact_mod_cast this
  have e : -2 * (Real.pi : ℂ) * Complex.I * (m : ℂ) * (n : ℂ) / ((x.length : ℕ) : ℂ)
      = (n : ℂ) * (-(Real.pi * Complex.I)) := by
    rw [hx]
    push_cast
    field_simp
    ring
  rw [e, Complex.exp_nat_mul, Complex.exp_neg, Complex.exp_pi_mul_I]
  have e2 : ((-1 : ℂ)⁻¹) ^ n = (((-1 : ℝ) ^ n : ℝ) : ℂ) := by
    push_cast
    norm_num
  rw [e2, ← Complex.ofReal_mul, Complex.ofReal_im]

/-- C3: for a frame `x` of `N ≥ 1` samples, with `rfftw_one` the exact
real-to-halfcomplex transform of `x` (coefficients `X k`), the assignments
of `calc_power_spectrum` go to the indices `0, 1, …, N / 2` in this order,
each once; the result has `N / 2 + 1` entries; entry `k` is `|X k|²` (no
window, no division by `N`) and is non-negative; and entry 0 is the
square of the sum of the samples. -/
theorem power_spectrum_dft (E : Env ℝ) (x : List ℝ) (X : ℕ → ℂ) (ps : List ℝ)
    (hN : 1 ≤ x.length) (hps : ps.length = x.length / 2 + 1)
    (hdft : IsHalfComplexDFT x X (E.rfftw_one x)) :
    (calc_power_spectrum_writes E x x.length).map Prod.fst = List.range (x.length / 2 + 1)
    ∧ (calc_power_spectrum E x x.length ps).length = x.length / 2 + 1
    ∧ (∀ k : ℕ, k ≤ x.length / 2 →
        (calc_power_spectrum E x x.length ps).getD k 0 = Complex.normSq (X k)
        ∧ 0 ≤ (calc_power_spectrum E x x.length ps).getD k 0)
    ∧ (calc_power_spectrum E x x.length ps).getD 0 0 = x.sum ^ 2 := by
  have hX0 := dft_zero x X _ hdft
  have hbin : ∀ k : ℕ, k ≤ x.length / 2 →
      (calc_power_spectrum E x x.length ps).getD k 0 = Complex.normSq (X k) := by
    intro k hk
    rw [calc_power_spectrum_getD E x x.length ps hN hps k hk, Complex.normSq_apply]
    by_cases hk0 : k = 0
    · subst hk0
      rw [spectrumBin_zero, hdft.2.1 0 hk, hX0]
      simp
    · by_cases hmid : k < (x.length + 1) / 2
      · rw [spectrumBin_mid _ _ _ (by omega) hmid, hdft.2.1 k hk, hdft.2.2 k (by omega) hmid]
      · have hkeq : k = x.length / 2 := by omega
        have hlen : x.length = 2 * k := by omega
        subst hkeq
        rw [spectrumBin_nyquist _ _ (by omega) hmid, hdft.2.1 _ hk,
          dft_nyquist_im x X _ hdft (x.length / 2) (by omega) hlen]
        simp
  refine ⟨?_, ?_, ?_, ?_⟩
  · rw [calc_power_spectrum_writes_eq E x x.length hN, List.map_map]
    exact List.map_id _
  · rw [calc_power_spectrum_length, hps]
  · intro k hk
    refine ⟨hbin k hk, ?_⟩
    rw [hbin k hk]
    exact Complex.normSq_nonneg _
  · rw [hbin 0 (Nat.zero_le _), hX0, Complex.normSq_ofReal]
    ring

theorem dft_two_samples :
    IsHalfComplexDFT [1, 2]
      (fun k => ∑ n in Finset.range 2, ((([1, 2] : List ℝ).getD n 0 : ℝ) : ℂ)
        * Complex.exp (-2 * (Real.pi : ℂ) * Complex.I * (k : ℂ) * (n : ℂ) / ((2 : ℕ) : ℂ)))
      (fun k => if k = 0 then 3 else -1) := by
  refine ⟨fun k => rfl, ?_, ?_⟩
  · intro k hk
    have hk1 : k = 0 ∨ k = 1 := by
      simp only [List.length_cons, List.length_nil] at hk
      omega
    rcases hk1 with rfl | rfl
    · simp [Finset.sum_range_succ]
      norm_num
    · have e : -2 * (Real.pi : ℂ) * Complex.I * ((1 : ℕ) : ℂ) * ((1 : ℕ) : ℂ) / ((2 : ℕ) : ℂ)
          = -(Real.pi * Complex.I) := by
        push_cast
        ring
      simp only [Finset.sum_range_succ, Finset.sum_range_zero, List.getD_cons_zero,
        List.getD_cons_succ, e, Complex.exp_neg, Complex.exp_pi_mul_I]
      simp
      norm_num
  · intro k h1 h2
    simp only [List.length_cons, List.length_nil] at h2
    omega

/-- C3 at the frame `[1, 2]`, whose transform is `X 0 = 3`, `X 1 = -1`: both bins are
assigned once and bin 0 is `(1 + 2)²`. -/
theorem power_spectrum_dft_witness :
    (calc_power_spectrum_writes (envOf (fun _ k => if k = 0 then (3 : ℝ) else -1)) [1, 2] 2).map
        Prod.fst = List.range 2
    ∧ (calc_power_spectrum (envOf (fun _ k => if k = 0 then (3 : ℝ) else -1)) [1, 2] 2
        [0, 0]).getD 0 0 = ([1, 2] : List ℝ).sum ^ 2 :=
  ⟨(power_spectrum_dft (envOf (fun _ k => if k = 0 then (3 : ℝ) else -1)) [1, 2] _ [0, 0]
      (by simp) (by simp) dft_two_samples).1,
    (power_spectrum_dft (envOf (fun _ k => if k = 0 then (3 : ℝ) else -1)) [1, 2] _ [0, 0]
      (by simp) (by simp) dft_two_samples).2.2.2⟩

/-! ## The CSV file -/

section CsvLemmas

variable {α : Type} [Field α]

omit [Field α] in
theorem file_prepare_new (E : Env α) (g : Globals) (fs : FileSys) (name : String)
    (habsent : fs name = none) (hw : E.can_write name = true) :
    file_prepare E g fs name = (true, fs.write name (headerRow g.maxfreq)) := by
  simp [file_prepare, does_file_exist, habsent, hw]

omit [Field α] in
theorem file_prepare_existing (E : Env α) (g : Globals) (fs : FileSys) (name : String)
    (hex : fs name ≠ none) : (file_prepare E g fs name).2 = fs := by
  obtain ⟨d, hd⟩ := Option.ne_none_iff_exists'.mp hex
  by_cases hw : E.can_write name = true <;> simp [file_prepare, does_file_exist, hd, hw]

omit [Field α] in
theorem file_prepare_existing_ok (E : Env α) (g : Globals) (fs : FileSys) (name : String)
    (hex : fs name ≠ none) (hw : E.can_write name = true) :
    file_prepare E g fs name = (true, fs) := by
  obtain ⟨d, hd⟩ := Option.ne_none_iff_exists'.mp hex
  simp [file_prepare, does_file_exist, hd, hw]

theorem rowValues_length (E : Env α) (g : Globals) (w : List (List α)) :
    (rowValues E g w).length = (g.maxfreq - 1).toNat := by
  simp [rowValues]

theorem emitRow_new (E : Env α) (g : Globals) (fs : FileSys) (ti : Tm) (w : List (List α))
    (habsent : fs (datedName g.output_dir ti ".csv") = none)
    (hw : E.can_write (datedName g.output_dir ti ".csv") = true) :
    emitRow E g fs ti w
      = some ((fs.write (datedName g.output_dir ti ".csv") (headerRow g.maxfreq)).write
          (datedName g.output_dir ti ".csv")
          (headerRow g.maxfreq ++ dataRow E ti (rowValues E g w))) := by
  unfold emitRow
  simp only [file_prepare_new E g fs _ habsent hw, hw]
  simp [FileSys.write]

theorem emitRow_existing (E : Env α) (g : Globals) (fs : FileSys) (ti : Tm)
    (w : List (List α)) (d : String)
    (hex : fs (datedName g.output_dir ti ".csv") = some d)
    (hw : E.can_write (datedName g.output_dir ti ".csv") = true) :
    emitRow E g fs ti w
      = some (fs.write (datedName g.output_dir ti ".csv")
          (d ++ dataRow E ti (rowValues E g w))) := by
  unfold emitRow
  simp only [file_prepare_existing_ok E g fs _ (by simp [hex]) hw, hw]
  simp [hex]

end CsvLemmas

/-- C6: on a path that does not exist (and can be opened for writing) `file_prepare`
creates the file holding exactly the head line; on a path that exists it
leaves the file system as it is; and two emissions at local times `t1`, `t2`
of the same date, starting without the file, leave in it the head line
followed by the two data rows, each with `maxfreq - 1` values. -/
theorem csv_header_once {α : Type} [Field α] (E : Env α) (g : Globals) (fs : FileSys)
    (name : String) (t1 t2 : Tm) (w1 w2 : List (List α))
    (hw : E.can_write name = true)
    (h1 : datedName g.output_dir t1 ".csv" = name)
    (h2 : datedName g.output_dir t2 ".csv" = name) :
    (fs name = none →
      (file_prepare E g fs name).1 = true
      ∧ (file_prepare E g fs name).2 name = some (headerRow g.maxfreq)
      ∧ ∀ p : String, p ≠ name → (file_prepare E g fs name).2 p = fs p)
    ∧ (fs name ≠ none → (file_prepare E g fs name).2 = fs)
    ∧ (fs name = none →
      ∃ fs1 fs2 : FileSys, emitRow E g fs t1 w1 = some fs1 ∧ emitRow E g fs1 t2 w2 = some fs2
        ∧ fs2 name = some (headerRow g.maxfreq ++ dataRow E t1 (rowValues E g w1)
            ++ dataRow E t2 (rowValues E g w2))
        ∧ (rowValues E g w1).length = (g.maxfreq - 1).toNat
        ∧ (rowValues E g w2).length = (g.maxfreq - 1).toNat
        ∧ ∀ p : String, p ≠ name → fs2 p = fs p) := by
  refine ⟨fun habsent => ?_, file_prepare_existing E g fs name, fun habsent => ?_⟩
  · rw [file_prepare_new E g fs name habsent hw]
    refine ⟨rfl, by simp [FileSys.write], fun p hp => by simp [FileSys.write, hp]⟩
  · subst h1
    have e1 := emitRow_new E g fs t1 w1 habsent hw
    have e2 := emitRow_existing E g _ t2 w2
      (headerRow g.maxfreq ++ dataRow E t1 (rowValues E g w1))
      (show ((fs.write (datedName g.output_dir t1 ".csv") (headerRow g.maxfreq)).write
          (datedName g.output_dir t1 ".csv")
          (headerRow g.maxfreq ++ dataRow E t1 (rowValues E g w1)))
          (datedName g.output_dir t2 ".csv")
          = some (headerRow g.maxfreq ++ dataRow E t1 (rowValues E g w1)) by
        rw [h2]; simp [FileSys.write])
      (by rw [h2]; exact hw)
    refine ⟨_, _, e1, e2, ?_, rowValues_length E g w1, rowValues_length E g w2, ?_⟩
    · rw [h2]; simp [FileSys.write]
    · intro p hp
      rw [h2]; simp [FileSys.write, hp]

/-- C6 at a concrete state: with `maxfreq = 4` the head line is
`timestamp,1 Hz,2 Hz,3 Hz`, and two emissions into the empty file system
leave the head line and two rows of three values. -/
theorem csv_header_once_witness :
    headerRow 4 = "timestamp,1 Hz,2 Hz,3 Hz\n"
    ∧ ∃ fs1 fs2 : FileSys,
        emitRow env0 (globals0 4 1) fs0 ⟨115, 5, 1, 12, 0, 0⟩ [[1, 2, 3, 4]] = some fs1
        ∧ emitRow env0 (globals0 4 1) fs1 ⟨115, 5, 1, 12, 0, 1⟩ [[5, 6, 7, 8]] = some fs2
        ∧ fs2 "./2015-06-01_out.csv"
            = some (headerRow 4
                ++ dataRow env0 ⟨115, 5, 1, 12, 0, 0⟩ (rowValues env0 (globals0 4 1) [[1, 2, 3, 4]])
                ++ dataRow env0 ⟨115, 5, 1, 12, 0, 1⟩ (rowValues env0 (globals0 4 1) [[5, 6, 7, 8]]))
        ∧ (rowValues env0 (globals0 4 1) [[1, 2, 3, 4]]).length = 3
        ∧ (rowValues env0 (globals0 4 1) [[5, 6, 7, 8]]).length = 3 := by
  refine ⟨by decide, ?_⟩
  obtain ⟨fs1, fs2, e1, e2, e3, e4, e5, _⟩ :=
    (csv_header_once env0 (globals0 4 1) fs0 "./2015-06-01_out.csv" ⟨115, 5, 1, 12, 0, 0⟩
      ⟨115, 5, 1, 12, 0, 1⟩ [[1, 2, 3, 4]] [[5, 6, 7, 8]] rfl (by decide) (by decide)).2.2 rfl
  exact ⟨fs1, fs2, e1, e2, e3, e4, e5⟩

/-! ## Invariants of the loop -/

section Invariants

variable {α : Type} [Field α]

theorem SameConfig.refl (g : Globals) : SameConfig g g :=
  ⟨rfl, rfl, rfl, rfl, rfl, rfl, rfl, rfl⟩

theorem SameConfig.trans {g g1 g2 : Globals} (h1 : SameConfig g g1) (h2 : SameConfig g1 g2) :
    SameConfig g g2 := by
  obtain ⟨a1, a2, a3, a4, a5, a6, a7, a8⟩ := h1
  obtain ⟨b1, b2, b3, b4, b5, b6, b7, b8⟩ := h2
  exact ⟨b1.trans a1, b2.trans a2, b3.trans a3, b4.trans a4, b5.trans a5, b6.trans a6,
    b7.trans a7, b8.trans a8⟩

omit [Field α] in
theorem wav_create_sameConfig (E : Env α) (g : Globals) (fs : FileSys) (filename : String) :
    SameConfig g (wav_create E g fs filename).1 := by
  unfold wav_create close_wav
  split_ifs <;> simp [SameConfig]

omit [Field α] in
theorem wav_reopen_sameConfig (E : Env α) (g : Globals) (fs : FileSys) (filename : String) :
    SameConfig g (wav_reopen E g fs filename) := by
  unfold wav_reopen
  split_ifs
  · split
    · simp [SameConfig]
    · exact SameConfig.refl _
  · split <;> exact SameConfig.refl _
  · exact SameConfig.refl _

omit [Field α] in
theorem write_wav_sameConfig (E : Env α) (g : Globals) (fs : FileSys) (clock : Nat)
    (data : List α) : SameConfig g (write_wav E g fs clock data).1 := by
  unfold write_wav
  split_ifs with hwav
  · exact SameConfig.refl g
  · exact (wav_create_sameConfig E g fs _).trans (wav_reopen_sameConfig E _ _ _)

theorem iterate_step_inv (E : Env α) (P : State α → Prop)
    (hstep : ∀ s, P s → s.status = Status.running → P (loopBody E s))
    (s0 : State α) (h0 : P s0) (k : Nat) : P ((step E)^[k] s0) := by
  induction k with
  | zero => exact h0
  | succ k ih =>
    rw [Function.iterate_succ_apply']
    generalize (step E)^[k] s0 = s at ih
    unfold step
    split
    · next h => exact hstep s ih h
    · exact ih

theorem emission_g (E : Env α) (s : State α) : (emission E s).g = s.g := by
  unfold emission
  simp only
  split <;> rfl

theorem storeSpectrum_g (E : Env α) (s : State α) (x : List α) :
    (storeSpectrum E s x).g = s.g := by
  unfold storeSpectrum
  split_ifs
  · rw [emission_g]; rfl
  · rfl

theorem feedFrame_g (E : Env α) (s : State α) :
    (feedFrame E s).g = (write_wav E s.g s.fs s.clock (realbufOf s)).1 := by
  unfold feedFrame
  split_ifs
  · rfl
  · rw [storeSpectrum_g]; rfl

theorem loopBody_sameConfig (E : Env α) (s : State α) : SameConfig s.g (loopBody E s).g := by
  unfold loopBody
  split_ifs
  · exact SameConfig.refl _
  · exact SameConfig.refl _
  · rw [feedFrame_g]
    exact write_wav_sameConfig E _ _ _ _

theorem iterate_sameConfig (E : Env α) (s0 : State α) (k : Nat) :
    SameConfig s0.g ((step E)^[k] s0).g :=
  iterate_step_inv E (fun s => SameConfig s0.g s.g)
    (fun s hs _ => hs.trans (loopBody_sameConfig E s)) s0 (SameConfig.refl _) k

omit [Field α] in
theorem enterLoop_g (E : Env α) (g : Globals) (fp : FILE) (fs : FileSys) (clock : Nat) :
    (enterLoop E g fp fs clock).g = g := by
  unfold enterLoop
  simp only
  split_ifs <;> rfl

theorem cheak_riff_header_sameConfig (g : Globals) (h : t_RIFF_header) :
    (cheak_riff_header g h).2.output_dir = g.output_dir
    ∧ (cheak_riff_header g h).2.maxfreq = g.maxfreq
    ∧ (cheak_riff_header g h).2.avg_int_in_sec = g.avg_int_in_sec
    ∧ (cheak_riff_header g h).2.in_db = g.in_db
    ∧ (cheak_riff_header g h).2.read_command = g.read_command
    ∧ (cheak_riff_header g h).2.wav = g.wav := by
  unfold cheak_riff_header
  simp only
  split_ifs <;> simp

theorem cheak_riff_header_format (g : Globals) (h : t_RIFF_header)
    (hok : (cheak_riff_header g h).1 = true) :
    (cheak_riff_header g h).2.samplerate = h.SampleRate
    ∧ (cheak_riff_header g h).2.bitspersample = h.BitsPerSample := by
  unfold cheak_riff_header at hok ⊢
  simp only at hok ⊢
  split_ifs at hok ⊢
  simp_all

theorem clampMaxfreq_eq (g : Globals) :
    clampMaxfreq g = { g with maxfreq := min g.maxfreq (Int.tdiv g.samplerate 2) } := by
  unfold clampMaxfreq
  split_ifs with h
  · rw [min_eq_right (le_of_lt h)]
  · rw [min_eq_left (not_lt.mp h)]

omit [Field α] in
theorem mainloopInit_accepted (E : Env α) (g : Globals) (fs : FileSys) (clock : Nat)
    (fp : FILE)
    (hn : 0 + ((fread fp sizeof_t_RIFF_header).1.length : Int)
        = (sizeof_t_RIFF_header : Int))
    (hok : (cheak_riff_header g (headerOfBytes (fread fp sizeof_t_RIFF_header).1)).1 = true) :
    mainloopInit E g fs clock fp
      = enterLoop E
          (clampMaxfreq (cheak_riff_header g (headerOfBytes (fread fp sizeof_t_RIFF_header).1)).2)
          (fread fp sizeof_t_RIFF_header).2 fs clock := by
  unfold mainloopInit
  simp only
  rw [if_neg (not_not.mpr hn), if_neg (not_not.mpr hok)]

omit [Field α] in
theorem mainloopInit_not_accepted (E : Env α) (g : Globals) (fs : FileSys) (clock : Nat)
    (fp : FILE)
    (h : ¬ (0 + ((fread fp sizeof_t_RIFF_header).1.length : Int)
        = (sizeof_t_RIFF_header : Int)
      ∧ (cheak_riff_header g (headerOfBytes (fread fp sizeof_t_RIFF_header).1)).1 = true)) :
    (mainloopInit E g fs clock fp : State α).status = Status.returned false
    ∧ (mainloopInit E g fs clock fp : State α).frames = []
    ∧ (mainloopInit E g fs clock fp : State α).g.maxfreq = g.maxfreq := by
  unfold mainloopInit
  simp only
  by_cases h1 : 0 + ((fread fp sizeof_t_RIFF_header).1.length : Int)
      = (sizeof_t_RIFF_header : Int)
  · have h2 : ¬ (cheak_riff_header g (headerOfBytes (fread fp sizeof_t_RIFF_header).1)).1
        = true := fun h2 => h ⟨h1, h2⟩
    rw [if_neg (not_not.mpr h1), if_pos h2]
    exact ⟨rfl, rfl, (cheak_riff_header_sameConfig g _).2.1⟩
  · rw [if_pos h1]
    exact ⟨rfl, rfl, rfl⟩

omit [Field α] in
theorem mainloopInit_config (E : Env α) (g : Globals) (fs : FileSys) (clock : Nat)
    (fp : FILE) :
    (mainloopInit E g fs clock fp : State α).g.output_dir = g.output_dir
    ∧ (mainloopInit E g fs clock fp : State α).g.avg_int_in_sec = g.avg_int_in_sec
    ∧ (mainloopInit E g fs clock fp : State α).g.in_db = g.in_db
    ∧ (mainloopInit E g fs clock fp : State α).g.read_command = g.read_command
    ∧ (mainloopInit E g fs clock fp : State α).g.wav = g.wav := by
  obtain ⟨c1, c2, c3, c4, c5, c6⟩ :=
    cheak_riff_header_sameConfig g (headerOfBytes (fread fp sizeof_t_RIFF_header).1)
  unfold mainloopInit
  simp only
  by_cases h1 : 0 + ((fread fp sizeof_t_RIFF_header).1.length : Int)
      = (sizeof_t_RIFF_header : Int)
  · by_cases h2 : (cheak_riff_header g (headerOfBytes (fread fp sizeof_t_RIFF_header).1)).1
        = true
    · rw [if_neg (not_not.mpr h1), if_neg (not_not.mpr h2), enterLoop_g, clampMaxfreq_eq]
      exact ⟨c1, c3, c4, c5, c6⟩
    · rw [if_neg (not_not.mpr h1), if_pos h2]
      exact ⟨c1, c3, c4, c5, c6⟩
  · rw [if_pos h1]
    exact ⟨rfl, rfl, rfl, rfl, rfl⟩

omit [Field α] in
theorem mainloopInit_maxfreq (E : Env α) (g : Globals) (fs : FileSys) (clock : Nat)
    (fp : FILE) :
    (mainloopInit E g fs clock fp : State α).g.maxfreq
      = if 0 + ((fread fp sizeof_t_RIFF_header).1.length : Int) = (sizeof_t_RIFF_header : Int)
            ∧ (cheak_riff_header g (headerOfBytes (fread fp sizeof_t_RIFF_header).1)).1 = true
        then min g.maxfreq (Int.tdiv (headerOfBytes (fread fp sizeof_t_RIFF_header).1).SampleRate 2)
        else g.maxfreq := by
  split_ifs with h
  · rw [mainloopInit_accepted E g fs clock fp h.1 h.2, enterLoop_g, clampMaxfreq_eq]
    simp only
    rw [(cheak_riff_header_sameConfig g _).2.1, (cheak_riff_header_format g _ h.2).1]
  · exact (mainloopInit_not_accepted E g fs clock fp h).2.2

theorem succ_div_mod (A n : Nat) (hA : 1 ≤ A) :
    (n % A + 1 = A → (n + 1) / A = n / A + 1 ∧ (n + 1) % A = 0)
    ∧ (n % A + 1 ≠ A → (n + 1) / A = n / A ∧ (n + 1) % A = n % A + 1) := by
  have hdm := Nat.mod_add_div n A
  have hlt := Nat.mod_lt n (show A > 0 by omega)
  constructor
  · intro h
    rw [Nat.div_mod_unique (by omega)]
    rw [Nat.mul_succ]
    omega
  · intro h
    rw [Nat.div_mod_unique (by omega)]
    omega

theorem emission_count (E : Env α) (s : State α) :
    (emission E s).emissions = s.emissions + 1 ∧ (emission E s).aind = 0
    ∧ (emission E s).frames = s.frames := by
  unfold emission
  simp only
  split <;> exact ⟨rfl, rfl, rfl⟩

theorem storeSpectrum_count (E : Env α) (s : State α) (x : List α) :
    (storeSpectrum E s x).frames = s.frames
    ∧ (((s.aind + 1 : Nat) : Int) = s.g.avg_int_in_sec →
        (storeSpectrum E s x).emissions = s.emissions + 1 ∧ (storeSpectrum E s x).aind = 0)
    ∧ (((s.aind + 1 : Nat) : Int) ≠ s.g.avg_int_in_sec →
        (storeSpectrum E s x).emissions = s.emissions
        ∧ (storeSpectrum E s x).aind = s.aind + 1) := by
  unfold storeSpectrum
  by_cases h : ((s.aind + 1 : Nat) : Int) = s.g.avg_int_in_sec
  · have h1 : ((storeRow E s x).aind : Int) = (storeRow E s x).g.avg_int_in_sec := h
    rw [if_pos h1]
    exact ⟨(emission_count E _).2.2, fun _ => ⟨(emission_count E _).1, (emission_count E _).2.1⟩,
      fun h2 => absurd h h2⟩
  · have h1 : ¬ ((storeRow E s x).aind : Int) = (storeRow E s x).g.avg_int_in_sec := h
    rw [if_neg h1]
    exact ⟨rfl, fun h2 => absurd h2 h, fun _ => ⟨rfl, rfl⟩⟩

theorem feedFrame_count (E : Env α) (A : Nat) (hA : 1 ≤ A) (s : State α)
    (h : CountInv A s) : CountInv A (feedFrame E s) := by
  obtain ⟨hg, hem, hai⟩ := h
  have havg : (mirrorFrame E s).g.avg_int_in_sec = (A : Int) :=
    (write_wav_sameConfig E s.g s.fs s.clock (realbufOf s)).2.2.2.2.1.trans hg
  have hlt : s.aind < A := by rw [hai]; exact Nat.mod_lt _ (by omega)
  have hfr : (mirrorFrame E s).frames.length = s.frames.length + 1 := by
    simp [mirrorFrame]
  have hai1 : (mirrorFrame E s).aind = s.aind := rfl
  have hem1 : (mirrorFrame E s).emissions = s.emissions := rfl
  obtain ⟨hwrap, hstay⟩ := succ_div_mod A s.frames.length hA
  refine ⟨by rw [feedFrame_g]; exact havg, ?_⟩
  unfold feedFrame
  rw [if_neg (by rw [havg, hai1]; omega)]
  obtain ⟨c1, c2, c3⟩ := storeSpectrum_count E (mirrorFrame E s) (realbufOf s)
  rw [c1, hfr]
  by_cases hfull : (((mirrorFrame E s).aind + 1 : Nat) : Int) = (mirrorFrame E s).g.avg_int_in_sec
  · obtain ⟨d1, d2⟩ := c2 hfull
    rw [d1, d2, hem1]
    rw [havg, hai1] at hfull
    have hw := hwrap (by omega)
    omega
  · obtain ⟨d1, d2⟩ := c3 hfull
    rw [d1, d2, hem1, hai1]
    rw [havg, hai1] at hfull
    have hs := hstay (by omega)
    omega

theorem loopBody_count (E : Env α) (A : Nat) (hA : 1 ≤ A) (s : State α)
    (h : CountInv A s) : CountInv A (loopBody E s) := by
  unfold loopBody
  split_ifs
  · exact h
  · exact h
  · exact feedFrame_count E A hA (readBlock s) h

omit [Field α] in
theorem mainloopInit_count (E : Env α) (g : Globals) (fs : FileSys) (clock : Nat)
    (fp : FILE) :
    (mainloopInit E g fs clock fp : State α).emissions = 0
    ∧ (mainloopInit E g fs clock fp : State α).frames = []
    ∧ (mainloopInit E g fs clock fp : State α).aind = 0 := by
  by_cases h : 0 + ((fread fp sizeof_t_RIFF_header).1.length : Int) = (sizeof_t_RIFF_header : Int)
      ∧ (cheak_riff_header g (headerOfBytes (fread fp sizeof_t_RIFF_header).1)).1 = true
  · rw [mainloopInit_accepted E g fs clock fp h.1 h.2]
    unfold enterLoop
    simp only
    split_ifs <;> exact ⟨rfl, rfl, rfl⟩
  · unfold mainloopInit
    simp only
    by_cases h1 : 0 + ((fread fp sizeof_t_RIFF_header).1.length : Int)
        = (sizeof_t_RIFF_header : Int)
    · have h2 : ¬ (cheak_riff_header g (headerOfBytes (fread fp sizeof_t_RIFF_header).1)).1
          = true := fun h2 => h ⟨h1, h2⟩
      rw [if_neg (not_not.mpr h1), if_pos h2]
      exact ⟨rfl, rfl, rfl⟩
    · rw [if_pos h1]
      exact ⟨rfl, rfl, rfl⟩

theorem iterate_count (E : Env α) (g : Globals) (fs : FileSys) (clock : Nat) (fp : FILE)
    (A : Nat) (hA : 1 ≤ A) (hg : g.avg_int_in_sec = (A : Int)) (k : Nat) :
    CountInv A (mainloopState E g fs clock fp k) := by
  unfold mainloopState
  apply iterate_step_inv E (CountInv A) (fun s hs _ => loopBody_count E A hA s hs)
  obtain ⟨c1, c2, c3⟩ := mainloopInit_count E g fs clock fp
  refine ⟨(mainloopInit_config E g fs clock fp).2.1.trans hg, ?_, ?_⟩
  · rw [c1, c2]; simp
  · rw [c3, c2]; simp

theorem foldl_add_eq_sum (f : Nat → α) (A : Nat) :
    (List.range A).foldl (fun v j => v + f j) 0 = ∑ j in Finset.range A, f j := by
  induction A with
  | zero => simp
  | succ A ih => rw [List.range_succ, List.foldl_append, ih, Finset.sum_range_succ]; rfl

theorem rowValues_linear (E : Env α) (g : Globals) (w : List (List α))
    (hdb : g.in_db = false) :
    rowValues E g w = (List.range' 1 (g.maxfreq - 1).toNat).map (fun k =>
      (∑ j in Finset.range g.avg_int_in_sec.toNat, (w.getD j []).getD k 0)
        / (g.avg_int_in_sec.toNat : α)) := by
  unfold rowValues
  apply List.map_congr_left
  intro k _
  simp only [hdb, binMean, foldl_add_eq_sum]
  simp

theorem emission_rows (E : Env α) (s : State α) :
    (emission E s).rows = s.rows
    ∨ (emission E s).rows
        = s.rows ++ [⟨E.localtime s.clock, s.power_spectrum, rowValues E s.g s.power_spectrum⟩] := by
  unfold emission
  simp only
  split
  · exact Or.inl rfl
  · exact Or.inr rfl

theorem emission_power_spectrum (E : Env α) (s : State α) :
    (emission E s).power_spectrum = s.power_spectrum := by
  unfold emission
  simp only
  split <;> rfl

theorem emission_rowsInv (E : Env α) (M : Int) (A : Nat) (s : State α)
    (h : RowsInv M A s) : RowsInv M A (emission E s) := by
  obtain ⟨h1, h2, h3, h4, h5⟩ := h
  refine ⟨by rw [emission_g]; exact h1, by rw [emission_g]; exact h2,
    by rw [emission_g]; exact h3, by rw [emission_power_spectrum]; exact h4, ?_⟩
  intro r hr
  rcases emission_rows E s with e | e
  · rw [e] at hr
    exact h5 r hr
  · rw [e, List.mem_append, List.mem_singleton] at hr
    rcases hr with hr | rfl
    · exact h5 r hr
    · refine ⟨h4, ?_⟩
      simp only
      rw [rowValues_linear E s.g s.power_spectrum h3, h1, h2]
      simp

theorem storeSpectrum_rowsInv (E : Env α) (M : Int) (A : Nat) (s : State α) (x : List α)
    (h : RowsInv M A s) : RowsInv M A (storeSpectrum E s x) := by
  have hrow : RowsInv M A (storeRow E s x) := by
    obtain ⟨h1, h2, h3, h4, h5⟩ := h
    exact ⟨h1, h2, h3, by simp [storeRow, h4], h5⟩
  unfold storeSpectrum
  split_ifs
  · exact emission_rowsInv E M A _ hrow
  · exact hrow

theorem feedFrame_rowsInv (E : Env α) (M : Int) (A : Nat) (s : State α)
    (h : RowsInv M A s) : RowsInv M A (feedFrame E s) := by
  have hm : RowsInv M A (mirrorFrame E s) := by
    obtain ⟨h1, h2, h3, h4, h5⟩ := h
    obtain ⟨_, _, _, c4, c5, c6, _, _⟩ := write_wav_sameConfig E s.g s.fs s.clock (realbufOf s)
    exact ⟨c4.trans h1, c5.trans h2, c6.trans h3, h4, h5⟩
  unfold feedFrame
  split_ifs
  · exact hm
  · exact storeSpectrum_rowsInv E M A _ _ hm

theorem loopBody_rowsInv (E : Env α) (M : Int) (A : Nat) (s : State α)
    (h : RowsInv M A s) : RowsInv M A (loopBody E s) := by
  unfold loopBody
  split_ifs
  · exact h
  · exact h
  · exact feedFrame_rowsInv E M A (readBlock s) h

omit [Field α] in
theorem enterLoop_fields (E : Env α) (g : Globals) (fp : FILE) (fs : FileSys) (clock : Nat) :
    (enterLoop E g fp fs clock).power_spectrum.length = g.avg_int_in_sec.toNat
    ∧ (enterLoop E g fp fs clock).rows = []
    ∧ (enterLoop E g fp fs clock).frames = []
    ∧ (enterLoop E g fp fs clock).fp = fp
    ∧ (enterLoop E g fp fs clock).bytespersec
        = (Int.tdiv g.bitspersample 8 * g.samplerate).toNat
    ∧ (enterLoop E g fp fs clock).buffer.length
        = (Int.tdiv g.bitspersample 8 * g.samplerate).toNat := by
  unfold enterLoop
  simp only
  split_ifs <;> simp

omit [Field α] in
theorem mainloopInit_valid (E : Env α) (g : Globals) (fs : FileSys) (clock : Nat)
    (hdr payload : List Byte) (fails : Bool) (hlen : hdr.length = sizeof_t_RIFF_header)
    (hok : (cheak_riff_header g (headerOfBytes hdr)).1 = true) :
    mainloopInit E g fs clock (fdopen (hdr ++ payload) fails)
      = enterLoop E (clampMaxfreq (cheak_riff_header g (headerOfBytes hdr)).2)
          { rest := payload, fails := fails, eof := false, error := false } fs clock := by
  have hr := fread_header hdr payload fails hlen
  rw [mainloopInit_accepted E g fs clock _ (by rw [hr]; exact header_count hdr hlen)
    (by rw [hr]; exact hok), hr]

theorem iterate_rowsInv (E : Env α) (g : Globals) (fs : FileSys) (clock : Nat)
    (hdr payload : List Byte) (fails : Bool) (k : Nat)
    (hlen : hdr.length = sizeof_t_RIFF_header)
    (hok : (cheak_riff_header g (headerOfBytes hdr)).1 = true)
    (hA : 1 ≤ g.avg_int_in_sec) (hdb : g.in_db = false) :
    RowsInv (min g.maxfreq (Int.tdiv (headerOfBytes hdr).SampleRate 2)) g.avg_int_in_sec.toNat
      (mainloopState E g fs clock (fdopen (hdr ++ payload) fails) k) := by
  unfold mainloopState
  apply iterate_step_inv E _ (fun s hs _ => loopBody_rowsInv E _ _ s hs)
  rw [mainloopInit_valid E g fs clock hdr payload fails hlen hok]
  obtain ⟨c1, c2, c3, c4, c5, c6⟩ := cheak_riff_header_sameConfig g (headerOfBytes hdr)
  obtain ⟨f1, f2⟩ := cheak_riff_header_format g (headerOfBytes hdr) hok
  obtain ⟨e1, e2, _⟩ := enterLoop_fields E
    (clampMaxfreq (cheak_riff_header g (headerOfBytes hdr)).2)
    { rest := payload, fails := fails, eof := false, error := false } fs clock
  refine ⟨?_, ?_, ?_, ?_, ?_⟩
  · rw [enterLoop_g, clampMaxfreq_eq]
    simp only
    rw [c2, f1]
  · rw [enterLoop_g, clampMaxfreq_eq]
    simp only
    rw [c3]
    omega
  · rw [enterLoop_g, clampMaxfreq_eq]
    simp only
    rw [c4, hdb]
  · rw [e1, clampMaxfreq_eq]
    simp only
    rw [c3]
  · rw [e2]
    intro r hr
    simp at hr

/-! ### Progress of the loop -/

theorem emitRow_some (E : Env α) (g : Globals) (fs : FileSys) (ti : Tm) (w : List (List α))
    (hw : ∀ name, E.can_write name = true) : ∃ fs2, emitRow E g fs ti w = some fs2 := by
  cases hfs : fs (datedName g.output_dir ti ".csv") with
  | none => exact ⟨_, emitRow_new E g fs ti w hfs (hw _)⟩
  | some d => exact ⟨_, emitRow_existing E g fs ti w d hfs (hw _)⟩

theorem emission_flow (E : Env α) (s : State α) (hw : ∀ name, E.can_write name = true) :
    (emission E s).status = s.status ∧ (emission E s).fp = s.fp
    ∧ (emission E s).bytespersec = s.bytespersec := by
  obtain ⟨fs2, h⟩ := emitRow_some E s.g s.fs (E.localtime s.clock) s.power_spectrum hw
  unfold emission
  simp only [h]
  simp

theorem storeSpectrum_flow (E : Env α) (s : State α) (x : List α)
    (hw : ∀ name, E.can_write name = true) :
    (storeSpectrum E s x).status = s.status ∧ (storeSpectrum E s x).fp = s.fp
    ∧ (storeSpectrum E s x).bytespersec = s.bytespersec := by
  unfold storeSpectrum
  split_ifs
  · exact emission_flow E (storeRow E s x) hw
  · exact ⟨rfl, rfl, rfl⟩

theorem feedFrame_flow (E : Env α) (s : State α) (hw : ∀ name, E.can_write name = true)
    (A : Nat) (hA : 1 ≤ A) (hc : CountInv A s) :
    (feedFrame E s).status = s.status ∧ (feedFrame E s).fp = s.fp
    ∧ (feedFrame E s).bytespersec = s.bytespersec
    ∧ (feedFrame E s).frames = s.frames ++ [realbufOf s] := by
  obtain ⟨hg, _, hai⟩ := hc
  have havg : (mirrorFrame E s).g.avg_int_in_sec = (A : Int) :=
    (write_wav_sameConfig E s.g s.fs s.clock (realbufOf s)).2.2.2.2.1.trans hg
  have hlt : s.aind < A := by rw [hai]; exact Nat.mod_lt _ (by omega)
  have hai1 : (mirrorFrame E s).aind = s.aind := rfl
  unfold feedFrame
  rw [if_neg (by rw [havg, hai1]; omega)]
  obtain ⟨f1, f2, f3⟩ := storeSpectrum_flow E (mirrorFrame E s) (realbufOf s) hw
  exact ⟨f1, f2, f3, (storeSpectrum_count E (mirrorFrame E s) (realbufOf s)).1⟩

theorem loopBody_full (E : Env α) (B A : Nat) (hA : 1 ≤ A) (s : State α)
    (hw : ∀ name, E.can_write name = true) (h : Flowing B A s)
    (hlen : B ≤ s.fp.rest.length) :
    Flowing B A (loopBody E s)
    ∧ (loopBody E s).fp.rest = s.fp.rest.drop B
    ∧ (loopBody E s).frames.length = s.frames.length + 1 := by
  obtain ⟨h1, h2, h3, h4, h5, h6⟩ := h
  have hfp : (readBlock s).fp = { s.fp with rest := s.fp.rest.drop B } := by
    simp [readBlock, fread, h5, hlen]
  obtain ⟨f1, f2, f3, f4⟩ := feedFrame_flow E (readBlock s) hw A hA h6
  have hbody : loopBody E s = feedFrame E (readBlock s) := by
    unfold loopBody
    rw [if_neg (by simp [h2]), if_neg (by rw [hfp]; simp [h3])]
  rw [hbody]
  refine ⟨⟨f1.trans h1, ?_, ?_, ?_, f3.trans h5, feedFrame_count E A hA (readBlock s) h6⟩, ?_, ?_⟩
  · rw [f2, hfp]; exact h2
  · rw [f2, hfp]; exact h3
  · rw [f2, hfp]; exact h4
  · rw [f2, hfp]
  · rw [f4]; simp [readBlock]

theorem loopBody_short (E : Env α) (B A : Nat) (hA : 1 ≤ A) (s : State α)
    (hw : ∀ name, E.can_write name = true) (h : Flowing B A s)
    (hlen : s.fp.rest.length < B) :
    (loopBody E s).status = Status.running ∧ (loopBody E s).fp.eof = true
    ∧ (loopBody E s).frames.length = s.frames.length + 1 := by
  obtain ⟨h1, h2, h3, h4, h5, h6⟩ := h
  have hfp : (readBlock s).fp
      = { s.fp with rest := [], eof := s.fp.eof || !s.fp.fails,
                    error := s.fp.error || s.fp.fails } := by
    simp [readBlock, fread, h5, not_le.mpr hlen]
  obtain ⟨f1, f2, f3, f4⟩ := feedFrame_flow E (readBlock s) hw A hA h6
  have hbody : loopBody E s = feedFrame E (readBlock s) := by
    unfold loopBody
    rw [if_neg (by simp [h2]), if_neg (by rw [hfp]; simp [h3, h4])]
  rw [hbody]
  refine ⟨f1.trans h1, ?_, ?_⟩
  · rw [f2, hfp]; simp [h4]
  · rw [f4]; simp [readBlock]

theorem loopBody_eof (E : Env α) (s : State α) (heof : s.fp.eof = true) :
    (loopBody E s).status = Status.returned true ∧ (loopBody E s).frames = s.frames := by
  unfold loopBody
  rw [if_pos heof]
  exact ⟨rfl, rfl⟩

theorem step_running (E : Env α) (s : State α) (h : s.status = Status.running) :
    step E s = loopBody E s := by
  unfold step
  rw [h]

theorem run_flowing (E : Env α) (B A : Nat) (hB : 1 ≤ B) (hA : 1 ≤ A)
    (hw : ∀ name, E.can_write name = true) (q : Nat) :
    ∀ s : State α, Flowing B A s → s.fp.rest.length / B = q →
      ((step E)^[q + 2] s).status = Status.returned true
      ∧ ((step E)^[q + 2] s).frames.length = s.frames.length + q + 1 := by
  induction q with
  | zero =>
    intro s hs hq
    have hlen : s.fp.rest.length < B := (Nat.div_eq_zero_iff (by omega)).mp hq
    obtain ⟨a1, a2, a3⟩ := loopBody_short E B A hA s hw hs hlen
    obtain ⟨b1, b2⟩ := loopBody_eof E (loopBody E s) a2
    rw [Function.iterate_succ_apply, Function.iterate_succ_apply, Function.iterate_zero_apply,
      step_running E s hs.1, step_running E _ a1]
    exact ⟨b1, by rw [b2, a3]⟩
  | succ q ih =>
    intro s hs hq
    have hlen : B ≤ s.fp.rest.length := by
      by_contra hcon
      rw [Nat.div_eq_of_lt (by omega)] at hq
      omega
    obtain ⟨a1, a2, a3⟩ := loopBody_full E B A hA s hw hs hlen
    have hq1 : (loopBody E s).fp.rest.length / B = q := by
      rw [a2, List.length_drop]
      have := Nat.div_eq_sub_div (show 0 < B by omega) hlen
      omega
    obtain ⟨c1, c2⟩ := ih (loopBody E s) a1 hq1
    rw [Function.iterate_succ_apply, step_running E s hs.1]
    exact ⟨c1, by rw [c2, a3]; omega⟩

theorem run_stalled (E : Env α) (A : Nat) (hA : 1 ≤ A)
    (hw : ∀ name, E.can_write name = true) (s : State α) (hs : Flowing 0 A s) (k : Nat) :
    Flowing 0 A ((step E)^[k] s) :=
  iterate_step_inv E (Flowing 0 A)
    (fun t ht _ => (loopBody_full E 0 A hA t hw ht (Nat.zero_le _)).1) s hs k

omit [Field α] in
theorem enterLoop_running (E : Env α) (g : Globals) (fp : FILE) (fs : FileSys) (clock : Nat)
    (hrate : 0 ≤ g.samplerate) (hovf : Int.tdiv g.bitspersample 8 * g.samplerate < 2 ^ 31)
    (hA : 0 ≤ g.avg_int_in_sec) :
    (enterLoop E g fp fs clock).status = Status.running := by
  unfold enterLoop
  simp only
  rw [if_neg (by omega)]

theorem mainloopInit_flowing (E : Env α) (g : Globals) (fs : FileSys) (clock : Nat)
    (hdr payload : List Byte) (hlen : hdr.length = sizeof_t_RIFF_header)
    (hok : (cheak_riff_header g (headerOfBytes hdr)).1 = true)
    (hrate : 0 ≤ (headerOfBytes hdr).SampleRate)
    (hovf : Int.tdiv (headerOfBytes hdr).BitsPerSample 8 * (headerOfBytes hdr).SampleRate
      < 2 ^ 31)
    (hA : 1 ≤ g.avg_int_in_sec) :
    Flowing (Int.tdiv (headerOfBytes hdr).BitsPerSample 8
        * (headerOfBytes hdr).SampleRate).toNat g.avg_int_in_sec.toNat
      (mainloopInit E g fs clock (fdopen (hdr ++ payload) false))
    ∧ (mainloopInit E g fs clock (fdopen (hdr ++ payload) false)).fp.rest = payload
    ∧ (mainloopInit E g fs clock (fdopen (hdr ++ payload) false)).frames = [] := by
  have hcount := iterate_count E g fs clock (fdopen (hdr ++ payload) false)
    g.avg_int_in_sec.toNat (by omega) (by omega) 0
  unfold mainloopState at hcount
  rw [Function.iterate_zero_apply] at hcount
  rw [mainloopInit_valid E g fs clock hdr payload false hlen hok] at hcount ⊢
  obtain ⟨f1, f2⟩ := cheak_riff_header_format g (headerOfBytes hdr) hok
  obtain ⟨_, _, c3, _⟩ := cheak_riff_header_sameConfig g (headerOfBytes hdr)
  have hg : clampMaxfreq (cheak_riff_header g (headerOfBytes hdr)).2
      = { (cheak_riff_header g (headerOfBytes hdr)).2 with
          maxfreq := min (cheak_riff_header g (headerOfBytes hdr)).2.maxfreq
            (Int.tdiv (cheak_riff_header g (headerOfBytes hdr)).2.samplerate 2) } :=
    clampMaxfreq_eq _
  have hsr : (clampMaxfreq (cheak_riff_header g (headerOfBytes hdr)).2).samplerate
      = (headerOfBytes hdr).SampleRate := by rw [hg]; exact f1
  have hbits : (clampMaxfreq (cheak_riff_header g (headerOfBytes hdr)).2).bitspersample
      = (headerOfBytes hdr).BitsPerSample := by rw [hg]; exact f2
  have havg : (clampMaxfreq (cheak_riff_header g (headerOfBytes hdr)).2).avg_int_in_sec
      = g.avg_int_in_sec := by rw [hg]; exact c3
  obtain ⟨_, e2, e3, e4, e5, _⟩ := enterLoop_fields E
    (clampMaxfreq (cheak_riff_header g (headerOfBytes hdr)).2)
    { rest := payload, fails := false, eof := false, error := false } fs clock
  have hrun := enterLoop_running E (clampMaxfreq (cheak_riff_header g (headerOfBytes hdr)).2)
    { rest := payload, fails := false, eof := false, error := false } fs clock
    (by rw [hsr]; exact hrate) (by rw [hsr, hbits]; exact hovf) (by rw [havg]; omega)
  refine ⟨⟨hrun, ?_, ?_, ?_, ?_, hcount⟩, ?_, e3⟩
  · rw [e4]
  · rw [e4]
  · rw [e4]
  · rw [e5, hsr, hbits]
  · rw [e4]

/-! ### Rows written and emissions -/

theorem emission_rows_length (E : Env α) (s : State α)
    (hw : ∀ name, E.can_write name = true) (h : s.rows.length = s.emissions) :
    (emission E s).rows.length = (emission E s).emissions := by
  obtain ⟨fs2, hfs⟩ := emitRow_some E s.g s.fs (E.localtime s.clock) s.power_spectrum hw
  unfold emission
  simp only [hfs]
  simp [h]

theorem loopBody_rows_length (E : Env α) (s : State α)
    (hw : ∀ name, E.can_write name = true) (h : s.rows.length = s.emissions) :
    (loopBody E s).rows.length = (loopBody E s).emissions := by
  have hstore : ∀ (t : State α) (x : List α), t.rows.length = t.emissions →
      (storeSpectrum E t x).rows.length = (storeSpectrum E t x).emissions := by
    intro t x ht
    unfold storeSpectrum
    split_ifs
    · exact emission_rows_length E (storeRow E t x) hw ht
    · exact ht
  unfold loopBody
  split_ifs
  · exact h
  · exact h
  · unfold feedFrame
    split_ifs
    · exact h
    · exact hstore (mirrorFrame E (readBlock s)) _ h

theorem iterate_rows_length (E : Env α) (g : Globals) (fs : FileSys) (clock : Nat)
    (fp : FILE) (hw : ∀ name, E.can_write name = true) (k : Nat) :
    (mainloopState E g fs clock fp k).rows.length
      = (mainloopState E g fs clock fp k).emissions := by
  unfold mainloopState
  apply iterate_step_inv E (fun s => s.rows.length = s.emissions)
    (fun s hs _ => loopBody_rows_length E s hw hs)
  obtain ⟨c1, _, _⟩ := mainloopInit_count E g fs clock fp
  rw [c1]
  by_cases h : 0 + ((fread fp sizeof_t_RIFF_header).1.length : Int) = (sizeof_t_RIFF_header : Int)
      ∧ (cheak_riff_header g (headerOfBytes (fread fp sizeof_t_RIFF_header).1)).1 = true
  · rw [mainloopInit_accepted E g fs clock fp h.1 h.2, (enterLoop_fields E _ _ fs clock).2.1]
    rfl
  · unfold mainloopInit
    simp only
    by_cases h1 : 0 + ((fread fp sizeof_t_RIFF_header).1.length : Int)
        = (sizeof_t_RIFF_header : Int)
    · have h2 : ¬ (cheak_riff_header g (headerOfBytes (fread fp sizeof_t_RIFF_header).1)).1
          = true := fun h2 => h ⟨h1, h2⟩
      rw [if_neg (not_not.mpr h1), if_pos h2]
      rfl
    · rw [if_pos h1]
      rfl

/-! ### Termination on a positive byte rate -/

theorem loopBody_fp (E : Env α) (s : State α) (hne : s.fp.eof = false)
    (hrun : (loopBody E s).status = Status.running) :
    s.status = Status.running ∧ (readBlock s).fp.error = false
    ∧ (loopBody E s).fp = (readBlock s).fp
    ∧ (loopBody E s).bytespersec = s.bytespersec := by
  have hem : ∀ t : State α, (emission E t).status = Status.running →
      t.status = Status.running ∧ (emission E t).fp = t.fp
      ∧ (emission E t).bytespersec = t.bytespersec := by
    intro t ht
    unfold emission at ht ⊢
    simp only at ht ⊢
    split at ht
    · simp at ht
    · exact ⟨ht, rfl, rfl⟩
  have hst : ∀ (t : State α) (x : List α), (storeSpectrum E t x).status = Status.running →
      t.status = Status.running ∧ (storeSpectrum E t x).fp = t.fp
      ∧ (storeSpectrum E t x).bytespersec = t.bytespersec := by
    intro t x ht
    unfold storeSpectrum at ht ⊢
    split_ifs at ht ⊢
    · exact hem (storeRow E t x) ht
    · exact ⟨ht, rfl, rfl⟩
  unfold loopBody at hrun ⊢
  rw [if_neg (by simp [hne])] at hrun ⊢
  by_cases herr : (readBlock s).fp.error = true
  · rw [if_pos herr] at hrun
    simp at hrun
  · rw [if_neg herr] at hrun ⊢
    unfold feedFrame at hrun ⊢
    by_cases hund : (mirrorFrame E (readBlock s)).g.avg_int_in_sec
        ≤ ((mirrorFrame E (readBlock s)).aind : Int)
    · rw [if_pos hund] at hrun
      simp at hrun
    · rw [if_neg hund] at hrun ⊢
      obtain ⟨a1, a2, a3⟩ := hst (mirrorFrame E (readBlock s)) _ hrun
      exact ⟨a1, by simpa using herr, a2, a3⟩

theorem run_terminates (E : Env α) (B : Nat) (hB : 1 ≤ B) (m : Nat) :
    ∀ s : State α, s.bytespersec = B →
      s.fp.rest.length + (if s.fp.eof then 0 else 1) ≤ m →
      ((step E)^[m + 1] s).status ≠ Status.running := by
  induction m with
  | zero =>
    intro s _ hm
    have heof : s.fp.eof = true := by
      by_contra hcon
      rw [if_neg hcon] at hm
      omega
    rw [Function.iterate_succ_apply, Function.iterate_zero_apply]
    by_cases hrun : s.status = Status.running
    · rw [step_running E s hrun, (loopBody_eof E s heof).1]
      simp
    · rw [step_of_ended E s hrun]
      exact hrun
  | succ m ih =>
    intro s hs hm
    rw [Function.iterate_succ_apply]
    by_cases hrun : s.status = Status.running
    · rw [step_running E s hrun]
      by_cases hrun1 : (loopBody E s).status = Status.running
      · by_cases heof : s.fp.eof = true
        · rw [(loopBody_eof E s heof).1] at hrun1
          simp at hrun1
        · have hne : s.fp.eof = false := by simpa using heof
          obtain ⟨_, herr, hfp, hbps⟩ := loopBody_fp E s hne hrun1
          apply ih (loopBody E s) (hbps.trans hs)
          rw [hfp]
          rw [if_neg heof] at hm
          by_cases hlen : B ≤ s.fp.rest.length
          · have e : (readBlock s).fp = { s.fp with rest := s.fp.rest.drop B } := by
              simp [readBlock, fread, hs, hlen]
            rw [e]
            simp only [List.length_drop, hne]
            simp
            omega
          · have e : (readBlock s).fp
                = { s.fp with rest := [], eof := s.fp.eof || !s.fp.fails,
                              error := s.fp.error || s.fp.fails } := by
              simp [readBlock, fread, hs, hlen]
            rw [e] at herr ⊢
            simp only [Bool.or_eq_false_iff] at herr
            simp [hne, herr.2]
      · rw [iterate_step_of_ended E _ hrun1]
        exact hrun1
    · rw [step_of_ended E s hrun, iterate_step_of_ended E s hrun]
      exact hrun

theorem loopBody_defined (E : Env α) (A : Nat) (hA : 1 ≤ A) (s : State α)
    (hc : CountInv A s) (hs : s.status = Status.running) :
    (loopBody E s).status ≠ Status.undefined := by
  have hem : ∀ t : State α, t.status = Status.running →
      (emission E t).status ≠ Status.undefined := by
    intro t ht
    unfold emission
    simp only
    split
    · simp
    · simp [ht]
  obtain ⟨hg, _, hai⟩ := hc
  have havg : (mirrorFrame E (readBlock s)).g.avg_int_in_sec = (A : Int) :=
    (write_wav_sameConfig E _ _ _ _).2.2.2.2.1.trans hg
  have hlt : s.aind < A := by rw [hai]; exact Nat.mod_lt _ (by omega)
  have hai1 : (mirrorFrame E (readBlock s)).aind = s.aind := rfl
  unfold loopBody
  split_ifs
  · simp
  · simp
  · unfold feedFrame
    rw [if_neg (by rw [havg, hai1]; omega)]
    unfold storeSpectrum
    split_ifs
    · exact hem _ hs
    · show s.status ≠ Status.undefined
      rw [hs]
      simp

end Invariants

/-! ## The run configuration -/

/-- C8, as the code has it: at every point of a run of `mainloop` the output
directory, the averaging interval, the dB flag, the WAV flag and the read
command hold their values from before the run, while `maxfreq` holds the
minimum of its value before the run and half the sample rate of the header
when the header was accepted (so it never grows, and the clamped value stays
for later runs), and its value before the run otherwise. -/
theorem run_configuration {α : Type} [Field α] (E : Env α) (g : Globals) (fs : FileSys)
    (clock : Nat) (fp : FILE) (k : Nat) :
    (mainloopState E g fs clock fp k).g.output_dir = g.output_dir
    ∧ (mainloopState E g fs clock fp k).g.avg_int_in_sec = g.avg_int_in_sec
    ∧ (mainloopState E g fs clock fp k).g.in_db = g.in_db
    ∧ (mainloopState E g fs clock fp k).g.wav = g.wav
    ∧ (mainloopState E g fs clock fp k).g.read_command = g.read_command
    ∧ (mainloopState E g fs clock fp k).g.maxfreq ≤ g.maxfreq
    ∧ (mainloopState E g fs clock fp k).g.maxfreq
        = if 0 + ((fread fp sizeof_t_RIFF_header).1.length : Int) = (sizeof_t_RIFF_header : Int)
              ∧ (cheak_riff_header g (headerOfBytes (fread fp sizeof_t_RIFF_header).1)).1 = true
          then min g.maxfreq
            (Int.tdiv (headerOfBytes (fread fp sizeof_t_RIFF_header).1).SampleRate 2)
          else g.maxfreq := by
  obtain ⟨a1, _, _, a4, a5, a6, a7, a8⟩ :=
    iterate_sameConfig E (mainloopInit E g fs clock fp) k
  obtain ⟨b1, b2, b3, b4, b5⟩ := mainloopInit_config E g fs clock fp
  have hm := mainloopInit_maxfreq E g fs clock fp
  unfold mainloopState
  refine ⟨a1.trans b1, a5.trans b2, a6.trans b3, a8.trans b5, a7.trans b4, ?_, a4.trans hm⟩
  rw [a4, hm]
  split_ifs
  · exact min_le_left _ _
  · exact le_refl _

/-- C8 fails as stated: with `maxfreq = 100` configured, a run on a stream whose
header announces 100 samples per second returns TRUE with `maxfreq = 50`,
and a later run on a stream of 250 samples per second, started from the
variables the first run left, uses 50 and not 100. -/
theorem run_configuration_counterexample :
    (globals0 100 60).maxfreq = 100
    ∧ (mainloop env0 2 (globals0 100 60) fs0 0 (fdopen (headerBytes 100 8) false)).map
        (fun s => (s.status, s.g.maxfreq)) = some (Status.returned true, 50)
    ∧ (mainloop env0 2
        (mainloopState env0 (globals0 100 60) fs0 0 (fdopen (headerBytes 100 8) false) 2).g
        fs0 0 (fdopen (headerBytes 250 8) false)).map
        (fun s => (s.status, s.g.maxfreq)) = some (Status.returned true, 50) := by
  refine ⟨by decide, by decide, by decide⟩

/-! ## The averaging window -/

/-- C4, as the code has it: in a run with averaging interval `A ≥ 1`, whenever `n`
frames have been fed there have been `⌊n / A⌋` emissions (entries into the
block `if (aind == avg_int_in_sec)`, each of which writes one row when
every file can be written) and the cursor `aind` is `n mod A`, hence below
`A`; after `A` frames there is one emission and the cursor is 0; and after
`A + 1` frames there is still one emission provided `A ≥ 2`. -/
theorem averaging_cadence {α : Type} [Field α] (E : Env α) (g : Globals) (fs : FileSys)
    (clock : Nat) (fp : FILE) (k : Nat) (hA : 1 ≤ g.avg_int_in_sec) :
    (mainloopState E g fs clock fp k).emissions
        = (mainloopState E g fs clock fp k).frames.length / g.avg_int_in_sec.toNat
    ∧ (mainloopState E g fs clock fp k).aind
        = (mainloopState E g fs clock fp k).frames.length % g.avg_int_in_sec.toNat
    ∧ (mainloopState E g fs clock fp k).aind < g.avg_int_in_sec.toNat
    ∧ ((mainloopState E g fs clock fp k).frames.length = g.avg_int_in_sec.toNat →
        (mainloopState E g fs clock fp k).emissions = 1
        ∧ (mainloopState E g fs clock fp k).aind = 0)
    ∧ (2 ≤ g.avg_int_in_sec →
        (mainloopState E g fs clock fp k).frames.length = g.avg_int_in_sec.toNat + 1 →
        (mainloopState E g fs clock fp k).emissions = 1)
    ∧ ((∀ name, E.can_write name = true) →
        (mainloopState E g fs clock fp k).rows.length
          = (mainloopState E g fs clock fp k).emissions) := by
  have hA1 : 1 ≤ g.avg_int_in_sec.toNat := by omega
  obtain ⟨_, h2, h3⟩ := iterate_count E g fs clock fp g.avg_int_in_sec.toNat hA1 (by omega) k
  refine ⟨h2, h3, ?_, ?_, ?_, fun hw => iterate_rows_length E g fs clock fp hw k⟩
  · rw [h3]; exact Nat.mod_lt _ (by omega)
  · intro hn
    rw [h2, h3, hn]
    exact ⟨Nat.div_self (by omega), Nat.mod_self _⟩
  · intro hA2 hn
    rw [h2, hn, Nat.add_div_left _ (by omega), Nat.div_eq_of_lt (by omega)]

/-- C4 at a concrete run with `A = 2`: the stream holds three one-byte frames; once
the loop has fed them (the states after two and three iterations) the
counters are as stated. -/
theorem averaging_cadence_witness :
    (mainloopState env0 (globals0 100 2) fs0 0 (fdopen (headerBytes 1 8 ++ [1, 2, 3]) false)
        2).frames.length = 2
    ∧ ((mainloopState env0 (globals0 100 2) fs0 0 (fdopen (headerBytes 1 8 ++ [1, 2, 3]) false)
        2).emissions = 1
      ∧ (mainloopState env0 (globals0 100 2) fs0 0
          (fdopen (headerBytes 1 8 ++ [1, 2, 3]) false) 2).aind = 0)
    ∧ (mainloopState env0 (globals0 100 2) fs0 0 (fdopen (headerBytes 1 8 ++ [1, 2, 3]) false)
        3).emissions = 1 :=
  ⟨by decide,
    (averaging_cadence env0 (globals0 100 2) fs0 0 (fdopen (headerBytes 1 8 ++ [1, 2, 3]) false)
      2 (by decide)).2.2.2.1 (by decide),
    (averaging_cadence env0 (globals0 100 2) fs0 0 (fdopen (headerBytes 1 8 ++ [1, 2, 3]) false)
      3 (by decide)).2.2.2.2.1 (by decide) (by decide)⟩

/-- C4 fails as stated for `A = 1`: after `A + 1 = 2` frames (two full one-byte
frames of the stream) two emissions have occurred and two rows have been
written, not one. -/
theorem averaging_cadence_counterexample :
    (globals0 100 1).avg_int_in_sec = 1
    ∧ (mainloopState env0 (globals0 100 1) fs0 0 (fdopen (headerBytes 1 8 ++ [3, 4]) false)
        2).frames.length = 1 + 1
    ∧ (mainloopState env0 (globals0 100 1) fs0 0 (fdopen (headerBytes 1 8 ++ [3, 4]) false)
        2).emissions = 2
    ∧ (mainloopState env0 (globals0 100 1) fs0 0 (fdopen (headerBytes 1 8 ++ [3, 4]) false)
        2).rows.length = 2 := by
  refine ⟨by decide, by decide, by decide, by decide⟩

/-! ## The emitted rows -/

/-- C5: in a run in linear mode on a stream with an accepted header and with
averaging interval `A ≥ 1`, every row emitted holds exactly the values for
the bins `k = 1, …, M - 1` in this order, where `M` is the minimum of the
configured `maxfreq` and half the sample rate (so `M - 1` values, and neither
bin 0 nor a bin `≥ M`), and the value for bin `k` is the sum of
`power_spectrum[j][k]` over the `A` rows of the window divided by `A`. -/
theorem emitted_rows {α : Type} [Field α] (E : Env α) (g : Globals) (fs : FileSys)
    (clock : Nat) (hdr payload : List Byte) (fails : Bool) (k : Nat)
    (hlen : hdr.length = sizeof_t_RIFF_header)
    (hok : (cheak_riff_header g (headerOfBytes hdr)).1 = true)
    (hA : 1 ≤ g.avg_int_in_sec) (hdb : g.in_db = false) :
    ∀ r ∈ (mainloopState E g fs clock (fdopen (hdr ++ payload) fails) k).rows,
      r.values.length
          = (min g.maxfreq (Int.tdiv (headerOfBytes hdr).SampleRate 2) - 1).toNat
      ∧ r.window.length = g.avg_int_in_sec.toNat
      ∧ r.values
          = (List.range' 1 (min g.maxfreq (Int.tdiv (headerOfBytes hdr).SampleRate 2) - 1).toNat).map
              (fun b => (∑ j in Finset.range g.avg_int_in_sec.toNat,
                  (r.window.getD j []).getD b 0) / (g.avg_int_in_sec.toNat : α)) := by
  intro r hr
  obtain ⟨_, _, _, _, h5⟩ := iterate_rowsInv E g fs clock hdr payload fails k hlen hok hA hdb
  obtain ⟨hw, hv⟩ := h5 r hr
  refine ⟨?_, hw, hv⟩
  rw [hv]
  simp

/-- C5 at a concrete run: 8 samples per second, `maxfreq = 100` (clamped to 4),
`A = 2` and two full frames; the one row emitted has 3 values and a window
of 2 spectra. -/
theorem emitted_rows_witness :
    (mainloopState env0 (globals0 100 2) fs0 0
        (fdopen (headerBytes 8 8 ++ [1, 2, 3, 4, 5, 6, 7, 8, 9, 10, 11, 12, 13, 14, 15, 16]) false)
        2).rows.length = 1
    ∧ ∀ r ∈ (mainloopState env0 (globals0 100 2) fs0 0
        (fdopen (headerBytes 8 8 ++ [1, 2, 3, 4, 5, 6, 7, 8, 9, 10, 11, 12, 13, 14, 15, 16]) false)
        2).rows, r.values.length = 3 ∧ r.window.length = 2 := by
  refine ⟨by decide, fun r hr => ?_⟩
  have h := emitted_rows env0 (globals0 100 2) fs0 0 (headerBytes 8 8)
    [1, 2, 3, 4, 5, 6, 7, 8, 9, 10, 11, 12, 13, 14, 15, 16] false 2 (by decide) (by decide)
    (by decide) (by decide) r hr
  have e : (min (globals0 100 2).maxfreq
      (Int.tdiv (headerOfBytes (headerBytes 8 8)).SampleRate 2) - 1).toNat = 3 := by decide
  have e2 : (globals0 100 2).avg_int_in_sec.toNat = 2 := by decide
  rw [e, e2] at h
  exact ⟨h.1, h.2.1⟩

/-! ## Frames processed by a run -/

/-- The frames of a run on a source that ends in end-of-file: for an accepted header
with sample rate at least 1, `B` bytes per second, `L` payload bytes, an
averaging interval of at least 1 and an environment in which every file can
be written, `mainloop` returns TRUE after `⌊L / B⌋ + 2` tests of its loop
condition, and it has decoded and analysed `⌊L / B⌋ + 1` frames: every
read, the last short (or empty) one included, is followed by a frame. -/
theorem frames_processed {α : Type} [Field α] (E : Env α) (g : Globals) (fs : FileSys)
    (clock : Nat) (hdr payload : List Byte) (fuel : Nat)
    (hlen : hdr.length = sizeof_t_RIFF_header)
    (hok : (cheak_riff_header g (headerOfBytes hdr)).1 = true)
    (hrate : 1 ≤ (headerOfBytes hdr).SampleRate)
    (hovf : Int.tdiv (headerOfBytes hdr).BitsPerSample 8 * (headerOfBytes hdr).SampleRate
      < 2 ^ 31)
    (hA : 1 ≤ g.avg_int_in_sec) (hw : ∀ name, E.can_write name = true)
    (hfuel : payload.length / (Int.tdiv (headerOfBytes hdr).BitsPerSample 8
        * (headerOfBytes hdr).SampleRate).toNat + 2 ≤ fuel) :
    ∃ s : State α, mainloop E fuel g fs clock (fdopen (hdr ++ payload) false) = some s
      ∧ s.status = Status.returned true
      ∧ s.frames.length
          = payload.length / (Int.tdiv (headerOfBytes hdr).BitsPerSample 8
              * (headerOfBytes hdr).SampleRate).toNat + 1 := by
  have hbits := ((cheak_riff_header_iff g (headerOfBytes hdr)).mp hok).2.2.2.2.2.2
  have hB : 1 ≤ (Int.tdiv (headerOfBytes hdr).BitsPerSample 8
      * (headerOfBytes hdr).SampleRate).toNat := by
    rcases hbits with h8 | h16
    · rw [h8]
      have e : Int.tdiv 8 8 = 1 := by decide
      rw [e]
      omega
    · rw [h16]
      have e : Int.tdiv 16 8 = 2 := by decide
      rw [e]
      omega
  obtain ⟨hflow, hrest, hfr⟩ := mainloopInit_flowing E g fs clock hdr payload hlen hok
    (by omega) hovf hA
  generalize (Int.tdiv (headerOfBytes hdr).BitsPerSample 8
      * (headerOfBytes hdr).SampleRate).toNat = B at hB hflow hfuel ⊢
  obtain ⟨r1, r2⟩ := run_flowing E B _ hB (by omega) hw _ _ hflow rfl
  rw [hrest, hfr] at r2
  rw [hrest] at r1
  have hsplit : (step E)^[fuel] (mainloopInit E g fs clock (fdopen (hdr ++ payload) false))
      = (step E)^[payload.length / B + 2]
          (mainloopInit E g fs clock (fdopen (hdr ++ payload) false)) := by
    obtain ⟨d, rfl⟩ : ∃ d, fuel = d + (payload.length / B + 2) :=
      ⟨fuel - (payload.length / B + 2), by omega⟩
    rw [Function.iterate_add_apply, iterate_step_of_ended E _ (by rw [r1]; simp)]
  refine ⟨_, ?_, r1, ?_⟩
  · unfold mainloop mainloopState
    simp only
    rw [hsplit, if_neg (by rw [r1]; simp)]
  · rw [r2]; simp

/-- The theorem `frames_processed` at a concrete stream: two samples per second and
exactly two payload bytes give two frames. -/
theorem frames_processed_witness :
    ∃ s : State ℚ,
      mainloop env0 3 (globals0 100 60) fs0 0 (fdopen (headerBytes 2 8 ++ [3, 4]) false) = some s
      ∧ s.status = Status.returned true ∧ s.frames.length = 2 := by
  obtain ⟨s, h1, h2, h3⟩ := frames_processed env0 (globals0 100 60) fs0 0 (headerBytes 2 8)
    [3, 4] 3 (by decide) (by decide) (by decide) (by decide) (by decide) (fun _ => rfl)
    (by decide)
  exact ⟨s, h1, h2, by rw [h3]; decide⟩

/-- C7 at a failing input: the stream is an accepted header (2 samples per second, 8
bits) followed by `L = 2` payload bytes, that is exactly `⌊L / 2⌋ = 1` full
second.  The run returns TRUE having decoded two frames: the second one
follows the empty read that meets the end of the stream and is decoded
from the bytes the first read left in `buffer`.  On the header alone
(`L = 0`) one frame is decoded, from `buffer` as it was before any read. -/
theorem full_seconds_failing_input :
    (mainloop env0 3 (globals0 100 60) fs0 0 (fdopen (headerBytes 2 8 ++ [3, 4]) false)).map
        (fun s => (s.status, s.frames.length)) = some (Status.returned true, 2)
    ∧ (mainloopState env0 (globals0 100 60) fs0 0 (fdopen (headerBytes 2 8 ++ [3, 4]) false)
        1).buffer = [3, 4]
    ∧ (mainloopState env0 (globals0 100 60) fs0 0 (fdopen (headerBytes 2 8 ++ [3, 4]) false)
        2).buffer = [3, 4]
    ∧ (mainloop env0 2 (globals0 100 60) fs0 0 (fdopen (headerBytes 2 8) false)).map
        (fun s => (s.status, s.frames.length)) = some (Status.returned true, 1) := by
  refine ⟨by decide, by decide, by decide, by decide⟩

/-- Termination on a positive sample rate: for an accepted header with sample rate at
least 1 (and `bytespersec` within `int`), an averaging interval of at least
1, any environment and any finite source, ending in end-of-file or in a read
error, `mainloop` returns TRUE or FALSE after at most `L + 2` tests of its
loop condition, `L` being the number of payload bytes. -/
theorem returns_on_positive_rate {α : Type} [Field α] (E : Env α) (g : Globals)
    (fs : FileSys) (clock : Nat) (hdr payload : List Byte) (fails : Bool)
    (hlen : hdr.length = sizeof_t_RIFF_header)
    (hok : (cheak_riff_header g (headerOfBytes hdr)).1 = true)
    (hrate : 1 ≤ (headerOfBytes hdr).SampleRate)
    (hovf : Int.tdiv (headerOfBytes hdr).BitsPerSample 8 * (headerOfBytes hdr).SampleRate
      < 2 ^ 31)
    (hA : 1 ≤ g.avg_int_in_sec) :
    ∃ (s : State α) (res : Bool),
      mainloop E (payload.length + 2) g fs clock (fdopen (hdr ++ payload) fails) = some s
      ∧ s.status = Status.returned res := by
  have hbits := ((cheak_riff_header_iff g (headerOfBytes hdr)).mp hok).2.2.2.2.2.2
  have hB : 1 ≤ (Int.tdiv (headerOfBytes hdr).BitsPerSample 8
      * (headerOfBytes hdr).SampleRate).toNat := by
    rcases hbits with h8 | h16
    · rw [h8, show Int.tdiv 8 8 = 1 by decide]
      omega
    · rw [h16, show Int.tdiv 16 8 = 2 by decide]
      omega
  obtain ⟨f1, f2⟩ := cheak_riff_header_format g (headerOfBytes hdr) hok
  have hinit := mainloopInit_valid E g fs clock hdr payload fails hlen hok
  obtain ⟨_, _, _, e4, e5, _⟩ := enterLoop_fields E
    (clampMaxfreq (cheak_riff_header g (headerOfBytes hdr)).2)
    { rest := payload, fails := fails, eof := false, error := false } fs clock
  have hbps : (mainloopInit E g fs clock (fdopen (hdr ++ payload) fails)).bytespersec
      = (Int.tdiv (headerOfBytes hdr).BitsPerSample 8
          * (headerOfBytes hdr).SampleRate).toNat := by
    rw [hinit, e5, clampMaxfreq_eq]
    simp only
    rw [f1, f2]
  have hfp : (mainloopInit E g fs clock (fdopen (hdr ++ payload) fails)).fp
      = { rest := payload, fails := fails, eof := false, error := false } := by
    rw [hinit, e4]
  have hterm := run_terminates E _ hB (payload.length + 1)
    (mainloopInit E g fs clock (fdopen (hdr ++ payload) fails)) hbps (by rw [hfp]; simp)
  have hdef : (mainloopState E g fs clock (fdopen (hdr ++ payload) fails)
      (payload.length + 1 + 1)).status ≠ Status.undefined
      ∧ CountInv g.avg_int_in_sec.toNat (mainloopState E g fs clock
        (fdopen (hdr ++ payload) fails) (payload.length + 1 + 1)) := by
    unfold mainloopState
    apply iterate_step_inv E
      (fun s => s.status ≠ Status.undefined ∧ CountInv g.avg_int_in_sec.toNat s)
      (fun s hs hrun => ⟨loopBody_defined E _ (by omega) s hs.2 hrun,
        loopBody_count E _ (by omega) s hs.2⟩)
    refine ⟨?_, ?_⟩
    · rw [hinit, enterLoop_running E _ _ fs clock
        (by rw [clampMaxfreq_eq]; simp only; rw [f1]; omega)
        (by rw [clampMaxfreq_eq]; simp only; rw [f1, f2]; exact hovf)
        (by rw [clampMaxfreq_eq]; simp only
            rw [(cheak_riff_header_sameConfig g (headerOfBytes hdr)).2.2.1]; omega)]
      simp
    · have h0 := iterate_count E g fs clock (fdopen (hdr ++ payload) fails)
        g.avg_int_in_sec.toNat (by omega) (by omega) 0
      unfold mainloopState at h0
      rw [Function.iterate_zero_apply] at h0
      exact h0
  refine ⟨mainloopState E g fs clock (fdopen (hdr ++ payload) fails) (payload.length + 2), ?_⟩
  have hst : (mainloopState E g fs clock (fdopen (hdr ++ payload) fails)
      (payload.length + 2)).status ≠ Status.running := hterm
  cases hcase : (mainloopState E g fs clock (fdopen (hdr ++ payload) fails)
      (payload.length + 2)).status with
  | running => exact absurd hcase hst
  | undefined => exact absurd hcase hdef.1
  | returned res =>
    refine ⟨res, ?_, rfl⟩
    unfold mainloop
    simp only
    rw [if_neg hst]

/-- The theorem `returns_on_positive_rate` at a concrete stream whose source fails
after three payload bytes: the run returns. -/
theorem returns_on_positive_rate_witness :
    ∃ (s : State ℚ) (res : Bool),
      mainloop env0 (3 + 2) (globals0 100 60) fs0 0
        (fdopen (headerBytes 2 8 ++ [3, 4, 5]) true) = some s
      ∧ s.status = Status.returned res :=
  returns_on_positive_rate env0 (globals0 100 60) fs0 0 (headerBytes 2 8) [3, 4, 5] true
    (by decide) (by decide) (by decide) (by decide) (by decide)

/-! ## Termination -/

/-- C10 at a failing input: on a stream whose accepted header announces a sample
rate of 0, every read requests 0 bytes, the end-of-file indicator is never
set, and `mainloop` is still inside its loop after any number of
iterations, whatever follows the header. -/
theorem zero_rate_never_returns (payload : List Byte) (fuel : Nat) :
    mainloop env0 fuel (globals0 100 60) fs0 0 (fdopen (headerBytes 0 8 ++ payload) false)
      = none := by
  obtain ⟨hflow, _, _⟩ := mainloopInit_flowing env0 (globals0 100 60) fs0 0 (headerBytes 0 8)
    payload (by decide) (by decide) (by decide) (by decide) (by decide)
  have e : (Int.tdiv (headerOfBytes (headerBytes 0 8)).BitsPerSample 8
      * (headerOfBytes (headerBytes 0 8)).SampleRate).toNat = 0 := by decide
  rw [e] at hflow
  have hrun := run_stalled env0 _ (by decide) (fun _ => rfl) _ hflow fuel
  unfold mainloop mainloopState
  simp only
  rw [if_pos hrun.1]

end USBMicroReader
